import Mathlib

/-!
Shallow embedding of the pageserver's logical-to-physical mapping layer
(`pgdatadir_mapping.rs`): the key model, the `DatadirModification`
write-transaction, the relation-size cache, the reldir v1/v2 migration
dispatch, `find_gaps`, `flush`, and `find_lsn_for_timestamp`.

Machine integers (`u32` block counts, `u64` LSNs) are modelled as `Nat`;
`i64` deltas as `Int`.  None of the modelled operations can overflow on
the inputs the theorems quantify over, so no explicit wrap-around is
modelled.  Serialized byte buffers are modelled as a structured
`Payload` sum: deserialization into the wrong shape is a decode error,
matching the source where `des` fails on garbage.
-/

namespace PgDatadir

/-- Identifies one relation fork: `{spcnode, dbnode, relnode, forknum}`. -/
structure RelTag where
  spcnode : Nat
  dbnode : Nat
  relnode : Nat
  forknum : Nat
deriving DecidableEq, Repr

/-- The metadata/data keys of the mapping layer that the claims touch:
dbdir blob key, dense reldir blob key (`rel_dir_to_key`), relation size key
(`rel_size_to_key`), relation block key (`rel_block_to_key`), and the sparse
reldir-v2 key (`rel_tag_sparse_key`). -/
inductive Key where
  | dbdir
  | reldir (spcnode dbnode : Nat)
  | relSize (tag : RelTag)
  | relBlock (tag : RelTag) (blkno : Nat)
  | relSparse (spcnode dbnode relnode forknum : Nat)
deriving DecidableEq, Repr

/-- Sparse reldir-v2 entry marker (`RelDirExists`): `Exists` or a `Removed`
tombstone. -/
inductive RelDirExists where
  | Exists
  | Removed
deriving DecidableEq, Repr

/-- Structured stand-in for the serialized byte payloads stored under keys:
a `u32` size (`nblocks.to_le_bytes`), a serialized `RelDirectory`
(set of `(relnode, forknum)` pairs), a serialized `DbDirectory`
(`(spcnode, dbnode) -> bool` map), an encoded `RelDirExists` marker, or an
opaque page/blob. -/
inductive Payload where
  | sz (n : Nat)
  | reldir (rels : List (Nat × Nat))
  | dbdir (dbs : List ((Nat × Nat) × Bool))
  | relStatus (e : RelDirExists)
  | raw (n : Nat)
deriving DecidableEq, Repr

/-- `Value`: either a complete image or a WAL-record delta. -/
inductive Value where
  | image (p : Payload)
  | walRecord (n : Nat)
deriving DecidableEq, Repr

/-- The `PageReconstructError` variants the modelled reads can produce. -/
inductive PErr where
  | missingKey
  | cancelled
  | other
deriving DecidableEq, Repr

/-- `WalIngestError` kinds reachable from the modelled write operations. -/
inductive WErr where
  | invalidRelnode
  | relationAlreadyExists
  | pageRead (e : PErr)
deriving DecidableEq, Repr

/-- `RelSizeMigration`: the per-timeline reldir migration state machine. -/
inductive RelSizeMigration where
  | Legacy
  | Migrating
  | Migrated
deriving DecidableEq, Repr

/-- `DirectoryKind` (only the kinds the modelled operations record). -/
inductive DirKind where
  | Rel
  | RelV2
deriving DecidableEq, Repr

/-- `MetricsUpdate` for directory entry counters. -/
inductive MetricsUpdate where
  | Set (n : Nat)
  | Add (n : Nat)
  | Sub (n : Nat)
deriving DecidableEq, Repr

/-- Symbolic pending range-deletion. `relRange tag` stands for
`rel_key_range(tag)`. Modelled from the spec: `rel_key_range` lives in
`pageserver_api::key`, outside the given sources; per the spec it covers
"the relation's whole key range (size key + all block keys)". -/
inductive DelRange where
  | relRange (tag : RelTag)
deriving DecidableEq, Repr

/-- Which individual keys a symbolic deletion range covers. Modelled from
the spec: the range of `rel_key_range(tag)` contains the relation's size
key and every block key of the relation. -/
def DelRange.covers : DelRange → Key → Prop
  | .relRange tag, .relSize tag' => tag = tag'
  | .relRange tag, .relBlock tag' _ => tag = tag'
  | _, _ => False

/-- Events handed to the storage engine's `writer`
(`put_batch`, `delete_batch`, `finish_write`,
`update_current_logical_size`, `update_directory_entries_count`). -/
inductive WriterEvent where
  | putBatch (b : List (Key × Nat × Value))
  | deleteBatch (d : List (DelRange × Nat))
  | finishWrite (lsn : Nat)
  | updateLogicalSize (delta : Int)
  | updateDirEntries (k : DirKind) (u : MetricsUpdate)
deriving DecidableEq, Repr

/-- PostgreSQL block size constant `BLCKSZ`. -/
def BLCKSZ : Nat := 8192

/-- The committed key-value state of a timeline visible to the modelled
reads: an association list from `Key` to either a payload or an injected
read error.  A key absent from the list reads as `MissingKey`.  (The
modelled operations read the committed store at a single snapshot, so the
LSN argument of the underlying `Timeline::get` is not re-modelled;
none of the claims distinguish committed data at different LSNs.) -/
def Store := List (Key × Except PErr Payload)

/-- Committed-storage read (`Timeline::get`): first matching entry, or
`MissingKey` if absent. -/
def storeGet (st : Store) (key : Key) : Except PErr Payload :=
  match st.lookup key with
  | some r => r
  | none => .error .missingKey

/-- The timeline-side state the modelled operations touch: committed
store, the latest relation-size cache (`rel_size_latest_cache`,
`tag -> (lsn, nblocks)`), the bounded snapshot cache
(`rel_size_snapshot_cache`, `(lsn, tag) -> nblocks`), the persisted
migration status with its `migrated_lsn`, the `rel_size_v2_enabled`
config flag, `last_record_lsn`, and the log of events handed to the
storage writer. -/
structure Tline where
  store : Store
  relSizeLatestCache : List (RelTag × (Nat × Nat))
  relSizeSnapshotCache : List ((Nat × RelTag) × Nat)
  relSizeV2Status : RelSizeMigration × Option Nat
  relSizeV2Enabled : Bool
  lastRecordLsn : Nat
  writerLog : List WriterEvent

/-- `DatadirModification`: the in-flight write transaction. -/
structure Mod where
  lsn : Nat
  pendingLsns : List Nat
  pendingDeletions : List (DelRange × Nat)
  pendingNblocks : Int
  pendingMetadataPages : List (Key × List (Nat × Value))
  pendingDataBatch : Option (List (Key × Nat × Value))
  pendingDirectoryEntries : List (DirKind × MetricsUpdate)
  isImportingPgdata : Bool

/-- Combined state: the timeline plus its (at most one) open modification. -/
structure S where
  tline : Tline
  m : Mod

/-- `DatadirModification::is_data_key`: relation (and SLRU) block keys are
data, everything else is metadata.  SLRU keys are outside the model. -/
def isDataKey : Key → Bool
  | .relBlock _ _ => true
  | _ => false

/-- Lookup of a key's pending metadata write list
(`pending_metadata_pages.get(&key)`). -/
def pendingPages (m : Mod) (key : Key) : Option (List (Nat × Value)) :=
  m.pendingMetadataPages.lookup key

/-- `DatadirModification::get`: metadata keys consult the latest pending
write first (an image is returned, a pending WAL record is an error);
data keys, and metadata keys with no pending write, fall through to the
committed store. -/
def modGet (s : S) (key : Key) : Except PErr Payload :=
  if ¬ isDataKey key then
    match pendingPages s.m key with
    | some values =>
      match values.getLast? with
      | some (_, v) =>
        match v with
        | .image img => .ok img
        | .walRecord _ => .error .other
      | none => storeGet s.tline.store key
    | none => storeGet s.tline.store key
  else
    storeGet s.tline.store key

/-- `DatadirModification::sparse_get`: missing key normalizes to `none`. -/
def modSparseGet (s : S) (key : Key) : Except PErr (Option Payload) :=
  match modGet s key with
  | .ok v => .ok (some v)
  | .error .missingKey => .ok none
  | .error e => .error e

/-- Replace-or-append into one key's pending write list
(`put_metadata`): a write at the same LSN as the last pending value
replaces it in place, otherwise it is appended. -/
def putMetadataList (lsn : Nat) (val : Value) :
    List (Nat × Value) → List (Nat × Value)
  | [] => [(lsn, val)]
  | [(l, v)] => if l = lsn then [(l, val)] else [(l, v), (lsn, val)]
  | x :: xs => x :: putMetadataList lsn val xs

/-- Update an association list at a key (inserting at the end if absent). -/
def assocUpdate (key : Key) (f : List (Nat × Value) → List (Nat × Value)) :
    List (Key × List (Nat × Value)) → List (Key × List (Nat × Value))
  | [] => [(key, f [])]
  | (k, vs) :: rest =>
    if k = key then (k, f vs) :: rest else (k, vs) :: assocUpdate key f rest

/-- `DatadirModification::put_metadata`. -/
def putMetadata (m : Mod) (key : Key) (val : Value) : Mod :=
  { m with pendingMetadataPages :=
      assocUpdate key (putMetadataList m.lsn val) m.pendingMetadataPages }

/-- `DatadirModification::put_data`: append to the columnar batch. -/
def putData (m : Mod) (key : Key) (val : Value) : Mod :=
  { m with pendingDataBatch :=
      Option.some ((m.pendingDataBatch.getD []) ++ [(key, m.lsn, val)]) }

/-- `DatadirModification::put`: route by key class. -/
def modPut (m : Mod) (key : Key) (val : Value) : Mod :=
  if isDataKey key then putData m key val else putMetadata m key val

/-- `modPut` lifted to the combined state (the timeline is untouched). -/
def sPut (s : S) (key : Key) (val : Value) : S :=
  { s with m := modPut s.m key val }

/-- `DatadirModification::delete`: record a pending range deletion. -/
def modDelete (m : Mod) (r : DelRange) : Mod :=
  { m with pendingDeletions := m.pendingDeletions ++ [(r, m.lsn)] }

end PgDatadir

namespace PgDatadir

/-- `Timeline::get_cached_rel_size`: the latest-map hit requires the read
LSN to be at or after the cached LSN; otherwise (or with no latest entry)
the bounded snapshot map is consulted at the exact `(lsn, tag)` key.
(Hit/miss metric counters have no functional effect and are omitted.) -/
def getCachedRelSize (t : Tline) (tag : RelTag) (lsn : Nat) : Option Nat :=
  match t.relSizeLatestCache.lookup tag with
  | some (cachedLsn, nblocks) =>
    if lsn ≥ cachedLsn then some nblocks
    else t.relSizeSnapshotCache.lookup (lsn, tag)
  | none => t.relSizeSnapshotCache.lookup (lsn, tag)

/-- Overwrite-insert into an association list. -/
def assocSet {α β : Type} [DecidableEq α] (k : α) (v : β) :
    List (α × β) → List (α × β)
  | [] => [(k, v)]
  | (k', v') :: rest =>
    if k' = k then (k', v) :: rest else (k', v') :: assocSet k v rest

/-- `Timeline::set_cached_rel_size`: unconditionally store `(lsn, nblocks)`
for the tag in the latest cache. -/
def setCachedRelSize (t : Tline) (tag : RelTag) (lsn nblocks : Nat) : Tline :=
  { t with relSizeLatestCache := assocSet tag (lsn, nblocks) t.relSizeLatestCache }

/-- `Timeline::remove_cached_rel_size`: drop the tag's latest-cache entry. -/
def removeCachedRelSize (t : Tline) (tag : RelTag) : Tline :=
  { t with relSizeLatestCache :=
      t.relSizeLatestCache.filter (fun e => !decide (e.1 = tag)) }

/-- `Version`: a read source — either committed storage at an LSN range, or
the open modification (overlay first, storage on miss). -/
inductive Version where
  | lsnRange (effective request : Nat)
  | modified
deriving DecidableEq, Repr

/-- `Version::get_lsn`. -/
def versionLsn (s : S) : Version → Nat
  | .lsnRange e _ => e
  | .modified => s.m.lsn

/-- `Version::get`. -/
def versionGet (s : S) (v : Version) (key : Key) : Except PErr Payload :=
  match v with
  | .lsnRange _ _ => storeGet s.tline.store key
  | .modified => modGet s key

/-- `Version::sparse_get`: missing key normalizes to `none`. -/
def versionSparseGet (s : S) (v : Version) (key : Key) :
    Except PErr (Option Payload) :=
  match versionGet s v key with
  | .ok val => .ok (some val)
  | .error .missingKey => .ok none
  | .error e => .error e

/-- `RelDirectory::des`: payload must be a serialized reldir. -/
def desRelDir : Payload → Except PErr (List (Nat × Nat))
  | .reldir rels => .ok rels
  | _ => .error .other

/-- `DbDirectory::des`: payload must be a serialized dbdir. -/
def desDbDir : Payload → Except PErr (List ((Nat × Nat) × Bool))
  | .dbdir dbs => .ok dbs
  | _ => .error .other

/-- `buf.get_u32_le()` on a relation-size entry. -/
def asSize : Payload → Except PErr Nat
  | .sz n => .ok n
  | _ => .error .other

/-- `RelDirExists::decode_option`. Modelled from the spec: the decoder
lives in `pageserver_api::key`, outside the given sources; per the spec a
sparse entry holds an Exists/Removed marker and a missing key reads as
not-existing (`Removed`), anything else is a decode failure. -/
def relDirExistsDecodeOption : Option Payload → Except PErr RelDirExists
  | none => .ok .Removed
  | some (.relStatus e) => .ok e
  | some _ => .error .other

/-- `RelDirExists::decode` on a present value. Modelled from the spec, as
for `relDirExistsDecodeOption`. -/
def relDirExistsDecode : Payload → Except PErr RelDirExists
  | .relStatus e => .ok e
  | _ => .error .other

/-- Shared fallback of `get_rel_exists_in_reldir_v1`: read the dense
per-database `RelDirectory` blob and test membership. -/
def getRelExistsV1Read (s : S) (tag : RelTag) (v : Version) :
    Except PErr Bool := do
  let buf ← versionGet s v (Key.reldir tag.spcnode tag.dbnode)
  let dir ← desRelDir buf
  .ok (decide ((tag.relnode, tag.forknum) ∈ dir))

/-- `Timeline::get_rel_exists_in_reldir_v1`: use the caller-supplied
deserialized reldir when its key matches (release builds fall through to a
fresh read on mismatch; the test-build panic is not modelled). -/
def getRelExistsV1 (s : S) (tag : RelTag) (v : Version)
    (cached : Option (Key × List (Nat × Nat))) : Except PErr Bool :=
  match cached with
  | some (ck, dir) =>
    if ck = Key.reldir tag.spcnode tag.dbnode then
      .ok (decide ((tag.relnode, tag.forknum) ∈ dir))
    else getRelExistsV1Read s tag v
  | none => getRelExistsV1Read s tag v

/-- `Timeline::get_rel_exists_in_reldir_v2`: sparse-key lookup, decode
failures surface as `Other`. -/
def getRelExistsV2 (s : S) (tag : RelTag) (v : Version) : Except PErr Bool := do
  let key := Key.relSparse tag.spcnode tag.dbnode tag.relnode tag.forknum
  let raw ← versionSparseGet s v key
  match relDirExistsDecodeOption raw with
  | .ok buf => .ok (decide (buf = RelDirExists.Exists))
  | .error _ => .error .other

/-- `Timeline::get_rel_exists_in_reldir`: invalid-relnode check, then the
relation-size cache, then the dbdir existence check, then the
migration-state read-policy dispatch between v1 and v2. -/
def getRelExistsInReldir (s : S) (tag : RelTag) (v : Version)
    (cached : Option (Key × List (Nat × Nat))) : Except PErr Bool :=
  if tag.relnode = 0 then .error .other
  else
    match getCachedRelSize s.tline tag (versionLsn s v) with
    | some _ => .ok true
    | none => do
      let buf ← versionGet s v Key.dbdir
      let dbdirs ← desDbDir buf
      if ¬ dbdirs.any (fun e => decide (e.1 = (tag.spcnode, tag.dbnode))) then
        .ok false
      else
        let (status, migratedLsn) := s.tline.relSizeV2Status
        match status with
        | .Legacy => getRelExistsV1 s tag v cached
        | .Migrating =>
          if versionLsn s v < migratedLsn.getD 0 then
            getRelExistsV1 s tag v cached
          else
            -- v2 is also consulted here; a mismatch or v2 failure is only
            -- logged and v1's answer is returned.
            let v1res := getRelExistsV1 s tag v cached
            let _v2res := getRelExistsV2 s tag v
            v1res
        | .Migrated =>
          if versionLsn s v < migratedLsn.getD 0 then
            getRelExistsV1 s tag v cached
          else getRelExistsV2 s tag v

/-- `Timeline::get_rel_exists`. -/
def getRelExists (s : S) (tag : RelTag) (v : Version) : Except PErr Bool :=
  getRelExistsInReldir s tag v none

/-- `Timeline::list_rels_v1`: read and deserialize the dense reldir blob. -/
def listRelsV1 (s : S) (spc db : Nat) (v : Version) :
    Except PErr (List RelTag) := do
  let buf ← versionGet s v (Key.reldir spc db)
  let rels ← desRelDir buf
  .ok (rels.map (fun e => RelTag.mk spc db e.1 e.2))

/-- The committed sparse-keyspace scan underlying `list_rels_v2`
(`Timeline::scan` over `rel_tag_sparse_key_range(spcnode, dbnode)`): every
committed entry whose key is a sparse reldir key of this database. -/
def scanSparse (st : Store) (spc db : Nat) : List (Key × Except PErr Payload) :=
  st.filter (fun e =>
    match e.1 with
    | .relSparse s2 d2 _ _ => decide (s2 = spc) && decide (d2 = db)
    | _ => false)

/-- Accumulating loop of `list_rels_v2`: propagate read errors, reject
non-reldir payloads, skip `Removed` tombstones, collect the rest.  (The
`field2/field3/field6` shape checks of the source are enforced by the
structured `Key.relSparse` constructor itself.) -/
def listRelsV2Go : List (Key × Except PErr Payload) → List RelTag →
    Except PErr (List RelTag)
  | [], acc => .ok acc
  | (key, val) :: rest, acc =>
    match val with
    | .error e => .error e
    | .ok p =>
      match relDirExistsDecode p with
      | .error _ => .error .other
      | .ok st =>
        match key with
        | .relSparse s2 d2 rn fk =>
          if st = RelDirExists.Removed then listRelsV2Go rest acc
          else listRelsV2Go rest (acc ++ [RelTag.mk s2 d2 rn fk])
        | _ => .error .other

/-- `Timeline::list_rels_v2`: scan the sparse keyspace of the database in
committed storage at the read LSN. -/
def listRelsV2 (s : S) (spc db : Nat) : Except PErr (List RelTag) :=
  listRelsV2Go (scanSparse s.tline.store spc db) []

/-- `Timeline::list_rels`: the migration-state read-policy dispatch. -/
def listRels (s : S) (spc db : Nat) (v : Version) : Except PErr (List RelTag) :=
  let (status, migratedLsn) := s.tline.relSizeV2Status
  match status with
  | .Legacy => listRelsV1 s spc db v
  | .Migrating =>
    if versionLsn s v < migratedLsn.getD 0 then listRelsV1 s spc db v
    else
      -- v2 is also consulted; a mismatch or v2 failure is only logged and
      -- v1's answer is returned.
      let v1res := listRelsV1 s spc db v
      let _v2res := listRelsV2 s spc db
      v1res
  | .Migrated =>
    if versionLsn s v < migratedLsn.getD 0 then listRelsV1 s spc db v
    else listRelsV2 s spc db

end PgDatadir

namespace PgDatadir

/-- `RelDirMode`: the write-path view of the migration status. -/
structure RelDirMode where
  currentStatus : RelSizeMigration
  shouldInit : Bool
deriving DecidableEq, Repr

/-- `DatadirModification::maybe_enable_rel_size_v2`: combine the config
flag with the persisted status; initialization is only requested on a
relation creation outside of pgdata import while still `Legacy`. -/
def maybeEnableRelSizeV2 (s : S) (isCreate : Bool) : RelDirMode :=
  let status := s.tline.relSizeV2Status.1
  let config := s.tline.relSizeV2Enabled
  match config, status with
  | false, .Legacy => ⟨.Legacy, false⟩
  | false, st => ⟨st, false⟩
  | true, .Legacy => ⟨.Legacy, isCreate && !s.m.isImportingPgdata⟩
  | true, st => ⟨st, false⟩

/-- `DatadirModification::put_rel_truncation`: reject `relnode == 0`; if
the relation exists (per the transaction-aware existence check), read the
old size through the transaction, write the requested size
unconditionally, refresh the size cache, and adjust the running
block-count delta by `-(old - new)`. -/
def putRelTruncation (s : S) (rel : RelTag) (nblocks : Nat) : Except WErr S :=
  if rel.relnode = 0 then .error .invalidRelnode
  else
    match getRelExists s rel .modified with
    | .error e => .error (.pageRead e)
    | .ok false => .ok s
    | .ok true =>
      match modGet s (Key.relSize rel) with
      | .error e => .error (.pageRead e)
      | .ok p =>
        match asSize p with
        | .error e => .error (.pageRead e)
        | .ok oldSize =>
          let s := sPut s (Key.relSize rel) (.image (.sz nblocks))
          let s := { s with tline := setCachedRelSize s.tline rel s.m.lsn nblocks }
          .ok { s with m := { s.m with pendingNblocks :=
                  s.m.pendingNblocks - ((oldSize : Int) - (nblocks : Int)) } }

/-- `DatadirModification::put_rel_extend`: reject `relnode == 0`; read the
old size through the transaction; only if the new size is strictly larger,
write it, refresh the size cache, and increase the running block-count
delta by `new - old`. -/
def putRelExtend (s : S) (rel : RelTag) (nblocks : Nat) : Except WErr S :=
  if rel.relnode = 0 then .error .invalidRelnode
  else
    match modGet s (Key.relSize rel) with
    | .error e => .error (.pageRead e)
    | .ok p =>
      match asSize p with
      | .error e => .error (.pageRead e)
      | .ok oldSize =>
        if nblocks > oldSize then
          let s := sPut s (Key.relSize rel) (.image (.sz nblocks))
          let s := { s with tline := setCachedRelSize s.tline rel s.m.lsn nblocks }
          .ok { s with m := { s.m with pendingNblocks :=
                  s.m.pendingNblocks + ((nblocks : Int) - (oldSize : Int)) } }
        else .ok s

/-- Per-relation body of `put_rel_drop_v1`'s inner loop: on a found
directory entry, record the counter decrement, subtract the last known
size from the running delta, evict the size-cache entry, and push the
whole-relation range deletion. -/
def dropRelsV1Go (spc db : Nat) : S → List (Nat × Nat) → Bool → List RelTag →
    List RelTag → Except WErr (S × List (Nat × Nat) × Bool × List RelTag)
  | s, dir, dirty, dropped, [] => .ok (s, dir, dirty, dropped)
  | s, dir, dirty, dropped, relTag :: rest =>
    if (relTag.relnode, relTag.forknum) ∈ dir then
      let dir := dir.erase (relTag.relnode, relTag.forknum)
      let s := { s with m := { s.m with pendingDirectoryEntries :=
          s.m.pendingDirectoryEntries ++ [(DirKind.Rel, MetricsUpdate.Sub 1)] } }
      let dropped := dropped ++ [relTag]
      match modGet s (Key.relSize relTag) with
      | .error e => .error (.pageRead e)
      | .ok p =>
        match asSize p with
        | .error e => .error (.pageRead e)
        | .ok oldSize =>
          let s := { s with m := { s.m with pendingNblocks :=
              s.m.pendingNblocks - (oldSize : Int) } }
          let s := { s with tline := removeCachedRelSize s.tline relTag }
          let s := { s with m := modDelete s.m (DelRange.relRange relTag) }
          dropRelsV1Go spc db s dir true dropped rest
    else dropRelsV1Go spc db s dir dirty dropped rest

/-- `DatadirModification::put_rel_drop_v1`: per database, read the dense
reldir blob, drop each listed relation that is present, and write the
directory back if it changed. -/
def putRelDropV1 (s : S) :
    List ((Nat × Nat) × List RelTag) → Except WErr (S × List RelTag)
  | [] => .ok (s, [])
  | ((spc, db), relTags) :: rest =>
    match modGet s (Key.reldir spc db) with
    | .error e => .error (.pageRead e)
    | .ok buf =>
      match desRelDir buf with
      | .error e => .error (.pageRead e)
      | .ok dir =>
        match dropRelsV1Go spc db s dir false [] relTags with
        | .error e => .error e
        | .ok (s, dir, dirty, dropped) =>
          let s := if dirty then
              sPut s (Key.reldir spc db) (.image (.reldir dir)) else s
          match putRelDropV1 s rest with
          | .error e => .error e
          | .ok (s, droppedRest) => .ok (s, dropped ++ droppedRest)

/-- Per-relation body of `put_rel_drop_v2`'s loop: a sparse entry that
currently reads `Exists` gets the counter decrement and a `Removed`
tombstone.  The state is threaded even on error, because callers in
`Migrating` state swallow the error while keeping earlier mutations. -/
def dropRelsV2Go (spc db : Nat) : S → List RelTag → List RelTag →
    S × Except WErr (List RelTag)
  | s, dropped, [] => (s, .ok dropped)
  | s, dropped, relTag :: rest =>
    let key := Key.relSparse spc db relTag.relnode relTag.forknum
    match modSparseGet s key with
    | .error e => (s, .error (.pageRead e))
    | .ok raw =>
      match relDirExistsDecodeOption raw with
      | .error _ => (s, .error (.pageRead .other))
      | .ok val =>
        if val = RelDirExists.Exists then
          let dropped := dropped ++ [relTag]
          let s := { s with m := { s.m with pendingDirectoryEntries :=
              s.m.pendingDirectoryEntries ++ [(DirKind.RelV2, MetricsUpdate.Sub 1)] } }
          let s := sPut s key (.image (.relStatus .Removed))
          dropRelsV2Go spc db s dropped rest
        else dropRelsV2Go spc db s dropped rest

/-- `DatadirModification::put_rel_drop_v2` over the whole drop map. -/
def putRelDropV2 (s : S) :
    List ((Nat × Nat) × List RelTag) → S × Except WErr (List RelTag)
  | [] => (s, .ok [])
  | ((spc, db), relTags) :: rest =>
    match dropRelsV2Go spc db s [] relTags with
    | (s, .error e) => (s, .error e)
    | (s, .ok dropped) =>
      match putRelDropV2 s rest with
      | (s, .error e) => (s, .error e)
      | (s, .ok droppedRest) => (s, .ok (dropped ++ droppedRest))

/-- `DatadirModification::put_rel_drops`: dispatch on the write-path
migration status — `Legacy` writes only v1, `Migrating` writes v1 and then
v2 with any v2 failure or v1/v2 mismatch only logged, `Migrated` writes
only v2 and propagates its failure. -/
def putRelDrops (s : S) (dropRelations : List ((Nat × Nat) × List RelTag)) :
    Except WErr S :=
  let v2mode := maybeEnableRelSizeV2 s false
  match v2mode.currentStatus with
  | .Legacy =>
    match putRelDropV1 s dropRelations with
    | .error e => .error e
    | .ok (s, _) => .ok s
  | .Migrating =>
    match putRelDropV1 s dropRelations with
    | .error e => .error e
    | .ok (s, _droppedV1) =>
      -- v2 result (or failure) is compared against v1 and only logged
      let (s, _res2) := putRelDropV2 s dropRelations
      .ok s
  | .Migrated =>
    match putRelDropV2 s dropRelations with
    | (_, .error e) => .error e
    | (s, .ok _) => .ok s

/-- `DatadirModification::flush`: a no-op below the 10000 pending-block
threshold; otherwise hand the accumulated data batch and the counter
deltas to the storage writer, clearing them, while the metadata overlay is
retained.  (The underlying `put_batch` write is modelled as succeeding;
the claims only concern successful flushes.) -/
def flush (s : S) : S :=
  let pendingNblocks := s.m.pendingNblocks
  if pendingNblocks < 10000 then s
  else
    let s : S :=
      match s.m.pendingDataBatch with
      | some batch =>
        { tline := { s.tline with
            writerLog := s.tline.writerLog ++ [WriterEvent.putBatch batch] },
          m := { s.m with pendingDataBatch := none } }
      | none => s
    let s : S :=
      if pendingNblocks ≠ 0 then
        { tline := { s.tline with writerLog := s.tline.writerLog ++
            [WriterEvent.updateLogicalSize (pendingNblocks * (BLCKSZ : Int))] },
          m := { s.m with pendingNblocks := 0 } }
      else s
    { tline := { s.tline with writerLog := s.tline.writerLog ++
        (s.m.pendingDirectoryEntries.map
          (fun e => WriterEvent.updateDirEntries e.1 e.2)) },
      m := { s.m with pendingDirectoryEntries := [] } }

end PgDatadir

namespace PgDatadir

/-- `LsnForTimestamp`: classification of a timestamp-to-LSN search. -/
inductive LsnForTimestamp where
  | Present (lsn : Nat)
  | Future (lsn : Nat)
  | Past (lsn : Nat)
  | NoData (lsn : Nat)
deriving DecidableEq, Repr

/-- One pass of the closure of `is_latest_commit_timestamp_ge_than` over
the commit timestamps visible at a probe LSN: the first timestamp at or
after the search timestamp sets `found_larger` and breaks with `true`;
every earlier one sets `found_smaller`.  Returns the updated
`(found_smaller, found_larger)` flags and the probe's boolean answer. -/
def probeScan (searchTs : Int) : List Int → Bool → Bool → Bool × Bool × Bool
  | [], fs, fl => (fs, fl, false)
  | t :: rest, fs, fl =>
    if t ≥ searchTs then (fs, true, true)
    else probeScan searchTs rest true fl

/-- Exit of the binary-search loop of `find_lsn_for_timestamp`: normal
termination with the final `low` and flags, or a short-circuit on a
`MissingKey` probe error, or propagation of any other probe error. -/
inductive LoopExit where
  | ok (low : Nat) (fs fl : Bool)
  | missing
  | err (e : PErr)
deriving DecidableEq, Repr

/-- The `while low < high` binary-search loop of `find_lsn_for_timestamp`
(`low`/`mid`/`high` are LSNs divided by 8).  `oracle l` yields the commit
timestamps scanned by a probe at LSN `l`, or a probe error. -/
def searchLoop (searchTs : Int) (oracle : Nat → Except PErr (List Int))
    (low high : Nat) (fs fl : Bool) : LoopExit :=
  if low < high then
    let mid := (high + low) / 2
    match oracle (mid * 8) with
    | .error .missingKey => .missing
    | .error e => .err e
    | .ok ts =>
      match probeScan searchTs ts fs fl with
      | (fs', fl', true) => searchLoop searchTs oracle low mid fs' fl'
      | (fs', fl', false) => searchLoop searchTs oracle (mid + 1) high fs' fl'
  else .ok low fs fl
termination_by high - low
decreasing_by
  · omega
  · omega

/-- `Timeline::find_lsn_for_timestamp`: binary search between
`min_lsn = max(gc_cutoff, ancestor_lsn)` and `max_lsn = last_record_lsn`
(both passed in here), followed by the classification of the final flags.
A `MissingKey` probe error short-circuits to `Past(min_lsn)`; any other
probe error propagates. -/
def findLsnForTimestamp (searchTs : Int)
    (oracle : Nat → Except PErr (List Int)) (minLsn maxLsn : Nat) :
    Except PErr LsnForTimestamp :=
  match searchLoop searchTs oracle (minLsn / 8) (maxLsn / 8 + 1) false false with
  | .missing => .ok (.Past minLsn)
  | .err e => .error e
  | .ok low fs fl =>
    let commitLsn := (low - 1) * 8
    match fs, fl with
    | false, false => .ok (.NoData minLsn)
    | false, true => .ok (.Past minLsn)
    | true, fl' =>
      if commitLsn < minLsn then .ok (.Past minLsn)
      else if fl' then .ok (.Present commitLsn)
      else .ok (.Future commitLsn)

/-- The timestamp oracle induced by a commit history: probing at LSN `l`
scans the timestamps of all commits whose LSN is at or below `l`, in
history order (the commit-timestamp SLRU contains a commit's timestamp
once the commit record at that LSN has been ingested). -/
def timestampsAt (commits : List (Nat × Int)) (probeLsn : Nat) :
    Except PErr (List Int) :=
  .ok ((commits.filter (fun c => c.1 ≤ probeLsn)).map (fun c => c.2))

end PgDatadir

namespace PgDatadir

/-- The physical six-field key layout (`Key` of `pageserver_api::key`), as
used by relation block keys. -/
structure Key6 where
  field1 : Nat
  field2 : Nat
  field3 : Nat
  field4 : Nat
  field5 : Nat
  field6 : Nat
deriving DecidableEq, Repr

/-- `rel_block_to_key`. Modelled from the spec: the encoder lives in
`pageserver_api::key`, outside the given sources; a relation block key
packs the relation tag into fields 2-5 and the block number into field 6. -/
def rel_block_to_key (rel : RelTag) (blkno : Nat) : Key6 :=
  ⟨0, rel.spcnode, rel.dbnode, rel.relnode, rel.forknum, blkno⟩

/-- Key successor (`Key::next`) restricted to block keys: increment the
block-number field (carry-free for the block numbers in scope). Modelled
from the spec, as for `rel_block_to_key`. -/
def Key6.next (k : Key6) : Key6 := { k with field6 := k.field6 + 1 }

/-- A contiguous key range `start..stop` (`Range<Key>`). -/
structure KeyRange6 where
  start : Key6
  stop : Key6
deriving DecidableEq, Repr

/-- `KeySpace`: a list of key ranges. -/
structure KeySpace6 where
  ranges : List KeyRange6
deriving DecidableEq, Repr

/-- `KeySpaceAccum`: ranges already emitted plus the range being grown. -/
structure KeySpaceAccum where
  accum : Option KeyRange6
  ranges : List KeyRange6
deriving DecidableEq, Repr

/-- `KeySpaceAccum::new`. -/
def KeySpaceAccum.new : KeySpaceAccum := ⟨none, []⟩

/-- `KeySpaceAccum::add_key`: append `key..key.next()`, coalescing with
the range being grown when contiguous. Modelled from the spec: the
accumulator lives in `pageserver::keyspace`, outside the given sources;
per the spec, `find_gaps` returns contiguous gap block ranges. -/
def KeySpaceAccum.add_key (a : KeySpaceAccum) (k : Key6) : KeySpaceAccum :=
  match a.accum with
  | none => ⟨some ⟨k, k.next⟩, a.ranges⟩
  | some r =>
    if r.stop = k then ⟨some ⟨r.start, k.next⟩, a.ranges⟩
    else ⟨some ⟨k, k.next⟩, a.ranges ++ [r]⟩

/-- `KeySpaceAccum::to_keyspace`. -/
def KeySpaceAccum.to_keyspace (a : KeySpaceAccum) : KeySpace6 :=
  match a.accum with
  | none => ⟨a.ranges⟩
  | some r => ⟨a.ranges ++ [r]⟩

/-- `ShardIdentity`: the shard's own number plus the key-ownership
function `get_shard_number`, kept abstract because the source only ever
applies it. -/
structure ShardIdentity where
  number : Nat
  shardOf : Key6 → Nat

/-- `ShardIdentity::unsharded`: a single shard (number 0) owning all keys. -/
def ShardIdentity.unsharded : ShardIdentity := ⟨0, fun _ => 0⟩

/-- `DatadirModification::find_gaps`: walk the block numbers from
`previous_nblocks` up to (excluding) `blkno`, keep those owned by this
shard, and accumulate their keys into a keyspace; `none` when no gap key
was accumulated. -/
def find_gaps (rel : RelTag) (blkno previous_nblocks : Nat)
    (shard : ShardIdentity) : Option KeySpace6 :=
  let gapAccum :=
    (List.range' previous_nblocks (blkno - previous_nblocks)).foldl
      (fun acc gapBlkno =>
        let k := { rel_block_to_key rel blkno with field6 := gapBlkno }
        if shard.shardOf k ≠ shard.number then acc
        else some ((acc.getD KeySpaceAccum.new).add_key k))
      none
  gapAccum.map KeySpaceAccum.to_keyspace

/-- The block keys covered by a contiguous block-key range. -/
def KeyRange6.blockKeys (r : KeyRange6) : List Key6 :=
  (List.range' r.start.field6 (r.stop.field6 - r.start.field6)).map
    (fun b => { r.start with field6 := b })

end PgDatadir

namespace PgDatadir

/-! Helper lemmas about the transaction overlay. -/

theorem putMetadataList_ne_nil (lsn : Nat) (val : Value)
    (xs : List (Nat × Value)) : putMetadataList lsn val xs ≠ [] := by
  match xs with
  | [] => simp [putMetadataList]
  | [(l, v)] =>
    simp only [putMetadataList]
    split <;> simp
  | x :: y :: rest =>
    simp [putMetadataList]

theorem putMetadataList_getLast (lsn : Nat) (val : Value)
    (xs : List (Nat × Value)) :
    ∃ l, (putMetadataList lsn val xs).getLast? = some (l, val) := by
  match xs with
  | [] => exact ⟨lsn, rfl⟩
  | [(l, v)] =>
    simp only [putMetadataList]
    split
    · exact ⟨l, rfl⟩
    · exact ⟨lsn, rfl⟩
  | x :: y :: rest =>
    have ih := putMetadataList_getLast lsn val (y :: rest)
    obtain ⟨l, hl⟩ := ih
    refine ⟨l, ?_⟩
    rw [show putMetadataList lsn val (x :: y :: rest)
        = x :: putMetadataList lsn val (y :: rest) from rfl]
    have hne := putMetadataList_ne_nil lsn val (y :: rest)
    cases h : putMetadataList lsn val (y :: rest) with
    | nil => exact absurd h hne
    | cons a as =>
      rw [h] at hl
      rw [List.getLast?_cons_cons]
      exact hl

theorem assocUpdate_lookup_self (key : Key)
    (f : List (Nat × Value) → List (Nat × Value))
    (l : List (Key × List (Nat × Value))) :
    (assocUpdate key f l).lookup key = some (f ((l.lookup key).getD [])) := by
  induction l with
  | nil => simp [assocUpdate, List.lookup]
  | cons hd tl ih =>
    obtain ⟨k, vs⟩ := hd
    by_cases hk : k = key
    · subst hk
      simp only [assocUpdate, if_pos rfl]
      simp [List.lookup]
    · simp only [assocUpdate, if_neg hk]
      have hbeq : (key == k) = false := by
        simp only [beq_eq_false_iff_ne, ne_eq]
        exact fun h => hk h.symm
      simp only [List.lookup, hbeq]
      exact ih

theorem assocUpdate_lookup_other (key key' : Key) (hne : key' ≠ key)
    (f : List (Nat × Value) → List (Nat × Value))
    (l : List (Key × List (Nat × Value))) :
    (assocUpdate key f l).lookup key' = l.lookup key' := by
  induction l with
  | nil =>
    simp only [assocUpdate, List.lookup]
    have : (key' == key) = false := by simpa [beq_iff_eq] using hne
    simp [this]
  | cons hd tl ih =>
    obtain ⟨k, vs⟩ := hd
    by_cases hk : k = key
    · subst hk
      simp only [assocUpdate, if_pos rfl]
      have hbeq : (key' == k) = false := by
        simp only [beq_eq_false_iff_ne, ne_eq]
        exact hne
      simp only [List.lookup, hbeq]
    · simp only [assocUpdate, if_neg hk]
      simp only [List.lookup]
      cases h : (key' == k) with
      | true => rfl
      | false => exact ih

/-- A metadata put is immediately visible to a subsequent read of the same
key through the same transaction. -/
theorem modGet_sPut_same (s : S) (key : Key) (p : Payload)
    (h : isDataKey key = false) :
    modGet (sPut s key (.image p)) key = .ok p := by
  unfold sPut modPut
  rw [h]
  simp only [Bool.false_eq_true, if_false]
  unfold modGet pendingPages putMetadata
  rw [h]
  simp only [Bool.not_eq_true, if_pos rfl]
  rw [assocUpdate_lookup_self]
  obtain ⟨l, hl⟩ := putMetadataList_getLast s.m.lsn (Value.image p)
    ((List.lookup key s.m.pendingMetadataPages).getD [])
  simp [hl]

/-- A put to one key does not change what the transaction reads at any
other key. -/
theorem modGet_sPut_other (s : S) (key key' : Key) (v : Value)
    (hne : key' ≠ key) :
    modGet (sPut s key v) key' = modGet s key' := by
  unfold sPut modPut
  by_cases hd : isDataKey key
  · simp only [hd, if_pos rfl]
    unfold modGet pendingPages putData
    rfl
  · simp only [hd, Bool.false_eq_true, if_false]
    unfold modGet pendingPages putMetadata
    by_cases hd' : isDataKey key'
    · simp [hd']
    · simp only [hd', Bool.not_eq_true, Bool.false_eq_true, if_false,
        Bool.not_false, if_pos]
      rw [assocUpdate_lookup_other key key' hne]

theorem sPut_tline (s : S) (key : Key) (v : Value) :
    (sPut s key v).tline = s.tline := rfl

theorem sPut_pendingNblocks (s : S) (key : Key) (v : Value) :
    (sPut s key v).m.pendingNblocks = s.m.pendingNblocks := by
  unfold sPut modPut putData putMetadata
  split <;> rfl

theorem sPut_lsn (s : S) (key : Key) (v : Value) :
    (sPut s key v).m.lsn = s.m.lsn := by
  unfold sPut modPut putData putMetadata
  split <;> rfl

theorem sPut_pendingDeletions (s : S) (key : Key) (v : Value) :
    (sPut s key v).m.pendingDeletions = s.m.pendingDeletions := by
  unfold sPut modPut putData putMetadata
  split <;> rfl

theorem sPut_pendingDirectoryEntries (s : S) (key : Key) (v : Value) :
    (sPut s key v).m.pendingDirectoryEntries = s.m.pendingDirectoryEntries := by
  unfold sPut modPut putData putMetadata
  split <;> rfl

end PgDatadir

namespace PgDatadir

/-- The relation size as read back through the transaction
(`self.get(rel_size_to_key(rel)).get_u32_le()`). -/
def readRelSize (s : S) (rel : RelTag) : Except PErr Nat :=
  match modGet s (Key.relSize rel) with
  | .ok p => asSize p
  | .error e => .error e

theorem readRelSize_ok (s : S) (rel : RelTag) (n : Nat)
    (h : readRelSize s rel = .ok n) :
    modGet s (Key.relSize rel) = .ok (.sz n) := by
  unfold readRelSize at h
  cases hm : modGet s (Key.relSize rel) with
  | ok p =>
    rw [hm] at h
    cases p <;> simp [asSize] at h
    rw [h]
  | error e => rw [hm] at h; exact absurd h (by simp)

theorem assocSet_lookup_self {α β : Type} [DecidableEq α] (k : α) (v : β)
    (l : List (α × β)) : (assocSet k v l).lookup k = some v := by
  induction l with
  | nil => simp [assocSet, List.lookup]
  | cons hd tl ih =>
    obtain ⟨k', v'⟩ := hd
    by_cases hk : k' = k
    · subst hk
      simp only [assocSet, if_pos rfl]
      simp [List.lookup]
    · simp only [assocSet, if_neg hk]
      have hbeq : (k == k') = false := by
        simp only [beq_eq_false_iff_ne, ne_eq]
        exact fun h => hk h.symm
      simp only [List.lookup, hbeq]
      exact ih

/-- `modGet` only depends on the pending metadata overlay and the
committed store. -/
theorem modGet_congr (s₁ s₂ : S) (key : Key)
    (h1 : s₁.m.pendingMetadataPages = s₂.m.pendingMetadataPages)
    (h2 : s₁.tline.store = s₂.tline.store) :
    modGet s₁ key = modGet s₂ key := by
  unfold modGet pendingPages storeGet
  rw [h1, h2]

/-- A latest-cache entry at or below the transaction's LSN makes the
transaction-aware existence check answer `true` immediately. -/
theorem getCachedRelSize_hit (t : Tline) (tag : RelTag) (lsn l nb : Nat)
    (hc : t.relSizeLatestCache.lookup tag = some (l, nb)) (hl : l ≤ lsn) :
    getCachedRelSize t tag lsn = some nb := by
  unfold getCachedRelSize
  rw [hc]
  simp [ge_iff_le, hl]

theorem getRelExists_cache_hit (s : S) (rel : RelTag) (l nb : Nat)
    (h0 : rel.relnode ≠ 0)
    (hc : s.tline.relSizeLatestCache.lookup rel = some (l, nb))
    (hl : l ≤ s.m.lsn) :
    getRelExists s rel .modified = .ok true := by
  unfold getRelExists getRelExistsInReldir
  rw [if_neg h0]
  rw [getCachedRelSize_hit s.tline rel (versionLsn s .modified) l nb hc hl]

/-- Effect of a size-growing `put_rel_extend`: the new size is written
(readable back through the transaction), the latest size cache is set at
the transaction's LSN, and the running delta grows by the difference.
Everything else about the transaction is untouched. -/
theorem putRelExtend_spec (s : S) (rel : RelTag) (n old : Nat)
    (h0 : rel.relnode ≠ 0) (hread : readRelSize s rel = .ok old)
    (hlt : old < n) :
    ∃ s', putRelExtend s rel n = .ok s' ∧
      readRelSize s' rel = .ok n ∧
      s'.m.pendingNblocks = s.m.pendingNblocks + ((n : Int) - (old : Int)) ∧
      s'.tline.relSizeLatestCache.lookup rel = some (s.m.lsn, n) ∧
      s'.m.lsn = s.m.lsn ∧
      s'.tline.store = s.tline.store ∧
      s'.m.pendingDeletions = s.m.pendingDeletions := by
  have hm := readRelSize_ok s rel old hread
  unfold putRelExtend
  rw [if_neg h0, hm]
  simp only [asSize]
  rw [if_pos (by omega : n > old)]
  refine ⟨_, rfl, ?_, ?_, ?_, ?_, ?_, ?_⟩
  · have h : readRelSize (sPut s (Key.relSize rel) (.image (.sz n))) rel
        = .ok n := by
      unfold readRelSize
      rw [modGet_sPut_same s (Key.relSize rel) (.sz n) rfl]
      rfl
    exact h
  · show (sPut s (Key.relSize rel) (.image (.sz n))).m.pendingNblocks + _ = _
    rw [sPut_pendingNblocks]
  · show (setCachedRelSize (sPut s _ _).tline rel
        (sPut s _ _).m.lsn n).relSizeLatestCache.lookup rel = _
    unfold setCachedRelSize
    rw [assocSet_lookup_self]
    rw [sPut_lsn]
  · show (sPut s _ _).m.lsn = s.m.lsn
    exact sPut_lsn s _ _
  · rfl
  · show (sPut s _ _).m.pendingDeletions = s.m.pendingDeletions
    exact sPut_pendingDeletions s _ _

/-- A non-growing `put_rel_extend` changes nothing at all. -/
theorem putRelExtend_noop (s : S) (rel : RelTag) (n old : Nat)
    (h0 : rel.relnode ≠ 0) (hread : readRelSize s rel = .ok old)
    (hle : n ≤ old) :
    putRelExtend s rel n = .ok s := by
  have hm := readRelSize_ok s rel old hread
  unfold putRelExtend
  rw [if_neg h0, hm]
  simp only [asSize]
  rw [if_neg (by omega : ¬ n > old)]

/-- Effect of `put_rel_truncation` on an existing relation: the requested
size is written unconditionally (whether smaller, equal, or larger than
the old size), the cache is refreshed, and the running delta moves by the
signed difference `new - old`. -/
theorem putRelTruncation_spec (s : S) (rel : RelTag) (n old : Nat)
    (h0 : rel.relnode ≠ 0)
    (hex : getRelExists s rel .modified = .ok true)
    (hread : readRelSize s rel = .ok old) :
    ∃ s', putRelTruncation s rel n = .ok s' ∧
      readRelSize s' rel = .ok n ∧
      s'.m.pendingNblocks = s.m.pendingNblocks - ((old : Int) - (n : Int)) ∧
      s'.tline.relSizeLatestCache.lookup rel = some (s.m.lsn, n) ∧
      s'.m.lsn = s.m.lsn ∧
      s'.tline.store = s.tline.store ∧
      s'.m.pendingDeletions = s.m.pendingDeletions := by
  have hm := readRelSize_ok s rel old hread
  unfold putRelTruncation
  rw [if_neg h0, hex, hm]
  simp only [asSize]
  refine ⟨_, rfl, ?_, ?_, ?_, ?_, ?_, ?_⟩
  · have h : readRelSize (sPut s (Key.relSize rel) (.image (.sz n))) rel
        = .ok n := by
      unfold readRelSize
      rw [modGet_sPut_same s (Key.relSize rel) (.sz n) rfl]
      rfl
    exact h
  · show (sPut s (Key.relSize rel) (.image (.sz n))).m.pendingNblocks - _ = _
    rw [sPut_pendingNblocks]
  · show (setCachedRelSize (sPut s _ _).tline rel
        (sPut s _ _).m.lsn n).relSizeLatestCache.lookup rel = _
    unfold setCachedRelSize
    rw [assocSet_lookup_self]
    rw [sPut_lsn]
  · show (sPut s _ _).m.lsn = s.m.lsn
    exact sPut_lsn s _ _
  · rfl
  · show (sPut s _ _).m.pendingDeletions = s.m.pendingDeletions
    exact sPut_pendingDeletions s _ _

end PgDatadir

namespace PgDatadir

/-! Concrete fixtures used by counterexamples and witnesses. -/

/-- A fresh open modification at LSN 10. -/
def mod0 : Mod :=
  { lsn := 10, pendingLsns := [], pendingDeletions := [], pendingNblocks := 0,
    pendingMetadataPages := [], pendingDataBatch := none,
    pendingDirectoryEntries := [], isImportingPgdata := false }

/-- A timeline in `Legacy` state with an empty store. -/
def tline0 : Tline :=
  { store := [], relSizeLatestCache := [], relSizeSnapshotCache := [],
    relSizeV2Status := (.Legacy, none), relSizeV2Enabled := false,
    lastRecordLsn := 5, writerLog := [] }

/-- C10 fixture: database `(1,1)` initialized, relation `(1,1,3,0)` not in
its (empty) dense directory. -/
def c10S : S :=
  { tline := { tline0 with store :=
      [(Key.dbdir, .ok (.dbdir [((1, 1), true)])),
       (Key.reldir 1 1, .ok (.reldir []))] },
    m := mod0 }

/-- C10: `put_rel_truncation` on a relation that does not exist (and whose
relnode is non-zero) returns `Ok` and changes nothing: no pending write,
no cache update, no delta change — the whole state is returned untouched. -/
theorem truncate_nonexistent_noop (s : S) (rel : RelTag) (n : Nat)
    (h0 : rel.relnode ≠ 0)
    (h1 : getRelExists s rel .modified = .ok false) :
    putRelTruncation s rel n = .ok s := by
  unfold putRelTruncation
  rw [if_neg h0, h1]

theorem truncate_nonexistent_noop_witness :
    (RelTag.mk 1 1 3 0).relnode ≠ 0 ∧
    getRelExists c10S (RelTag.mk 1 1 3 0) .modified = .ok false ∧
    putRelTruncation c10S (RelTag.mk 1 1 3 0) 7 = .ok c10S :=
  ⟨by decide, by rfl,
    truncate_nonexistent_noop c10S (RelTag.mk 1 1 3 0) 7 (by decide) (by rfl)⟩

/-- C4 (amended): read-your-writes holds for every metadata (non-data)
key: after an image put through the open transaction, a subsequent get of
that key through the same transaction returns exactly that image (whatever
was pending before, the latest put wins), while the committed timeline
state — and hence what any committed-storage reader at any LSN sees — is
completely unchanged.  (Per the source, data keys are exempt: `get` never
consults pending data writes.) -/
theorem read_your_writes (s : S) (key : Key) (p : Payload)
    (h : isDataKey key = false) :
    modGet (sPut s key (.image p)) key = .ok p ∧
    (sPut s key (.image p)).tline = s.tline ∧
    (∀ (l r : Nat) (key' : Key),
      versionGet (sPut s key (.image p)) (.lsnRange l r) key'
        = versionGet s (.lsnRange l r) key') :=
  ⟨modGet_sPut_same s key p h, rfl, fun _ _ _ => rfl⟩

theorem read_your_writes_witness :
    isDataKey Key.dbdir = false ∧
    modGet (sPut ⟨tline0, mod0⟩ Key.dbdir (.image (.raw 3))) Key.dbdir
      = .ok (.raw 3) :=
  ⟨by decide,
    (read_your_writes ⟨tline0, mod0⟩ Key.dbdir (.raw 3) (by decide)).1⟩

/-- C4 fixture: a committed data page for block 0 of relation
`(1,1,7,0)`. -/
def c4Key : Key := Key.relBlock (RelTag.mk 1 1 7 0) 0
def c4S : S :=
  { tline := { tline0 with store := [(c4Key, .ok (.raw 7))] }, m := mod0 }

/-- C4 counterexample: for a data key, a put into the open transaction is
NOT returned by a subsequent get through the same transaction — the read
falls through to committed storage and returns the old committed page, so
the claim's "for every key" fails on data keys. -/
theorem read_your_writes_data_key_fails :
    isDataKey c4Key = true ∧
    modGet (sPut c4S c4Key (.image (.raw 9))) c4Key = .ok (.raw 7) ∧
    Payload.raw 7 ≠ Payload.raw 9 :=
  ⟨by decide, by rfl, by decide⟩

/-- C2 fixture: relation `(1,1,4,0)` exists with committed size 5. -/
def c2Tag : RelTag := RelTag.mk 1 1 4 0
def c2S : S :=
  { tline := { tline0 with store :=
      [(Key.dbdir, .ok (.dbdir [((1, 1), true)])),
       (Key.reldir 1 1, .ok (.reldir [(4, 0)])),
       (Key.relSize c2Tag, .ok (.sz 5))] },
    m := mod0 }

/-- C2 counterexample: `put_rel_truncation` has no size guard — truncating
a relation of size 5 "to" 10 succeeds and writes the larger size, growing
the relation (and it also rewrites the size even when unchanged), so
"truncation never grows the relation" is false on the code. -/
theorem put_rel_truncation_grows :
    readRelSize c2S c2Tag = .ok 5 ∧
    (putRelTruncation c2S c2Tag 10).map
      (fun s' => (readRelSize s' c2Tag, s'.m.pendingNblocks))
      = .ok (.ok 10, 5) :=
  ⟨by rfl, by rfl⟩

/-- C2 (amended): `put_rel_extend` and `put_rel_truncation` both read the
relation's current size through the transaction.  `put_rel_extend` writes
the new size only when it is strictly greater than the old one (never
shrinking, and doing nothing at all otherwise), adjusting the running
block-count delta by `new - old`.  `put_rel_truncation`, on an existing
relation, always writes the requested size — even when it is unchanged or
larger than the old size — and adjusts the running delta by the signed
difference `new - old`. -/
theorem put_rel_size_change_policy :
    (∀ (s : S) (rel : RelTag) (n old : Nat), rel.relnode ≠ 0 →
      readRelSize s rel = .ok old → old < n →
      ∃ s', putRelExtend s rel n = .ok s' ∧
        readRelSize s' rel = .ok n ∧
        s'.m.pendingNblocks = s.m.pendingNblocks + ((n : Int) - (old : Int))) ∧
    (∀ (s : S) (rel : RelTag) (n old : Nat), rel.relnode ≠ 0 →
      readRelSize s rel = .ok old → n ≤ old →
      putRelExtend s rel n = .ok s) ∧
    (∀ (s : S) (rel : RelTag) (n old : Nat), rel.relnode ≠ 0 →
      getRelExists s rel .modified = .ok true →
      readRelSize s rel = .ok old →
      ∃ s', putRelTruncation s rel n = .ok s' ∧
        readRelSize s' rel = .ok n ∧
        s'.m.pendingNblocks = s.m.pendingNblocks - ((old : Int) - (n : Int))) := by
  refine ⟨?_, ?_, ?_⟩
  · intro s rel n old h0 hread hlt
    obtain ⟨s', h1, h2, h3, _⟩ := putRelExtend_spec s rel n old h0 hread hlt
    exact ⟨s', h1, h2, h3⟩
  · intro s rel n old h0 hread hle
    exact putRelExtend_noop s rel n old h0 hread hle
  · intro s rel n old h0 hex hread
    obtain ⟨s', h1, h2, h3, _⟩ := putRelTruncation_spec s rel n old h0 hex hread
    exact ⟨s', h1, h2, h3⟩

theorem put_rel_size_change_policy_witness :
    ((RelTag.mk 1 1 4 0).relnode ≠ 0 ∧ readRelSize c2S c2Tag = .ok 5 ∧
      (5 : Nat) < 8 ∧
      ∃ s', putRelExtend c2S c2Tag 8 = .ok s' ∧
        readRelSize s' c2Tag = .ok 8 ∧
        s'.m.pendingNblocks = c2S.m.pendingNblocks + ((8 : Int) - (5 : Int))) ∧
    (putRelExtend c2S c2Tag 3 = .ok c2S) ∧
    (getRelExists c2S c2Tag .modified = .ok true ∧
      ∃ s', putRelTruncation c2S c2Tag 2 = .ok s' ∧
        readRelSize s' c2Tag = .ok 2 ∧
        s'.m.pendingNblocks = c2S.m.pendingNblocks - ((5 : Int) - (2 : Int))) :=
  ⟨⟨by decide, by rfl, by decide,
      put_rel_size_change_policy.1 c2S c2Tag 8 5 (by decide) (by rfl) (by decide)⟩,
    put_rel_size_change_policy.2.1 c2S c2Tag 3 5 (by decide) (by rfl) (by decide),
    ⟨by rfl,
      put_rel_size_change_policy.2.2 c2S c2Tag 2 5 (by decide) (by rfl) (by rfl)⟩⟩

end PgDatadir

namespace PgDatadir

/-- C8 (amended): extend to `N`, truncate to `M < N`, extend back to `N`.
The final reported size is `N`, and the cumulative block-count delta of
the three calls is `N - s0` where `s0` is the relation's size before the
first call — in particular zero exactly when the relation already had
size `N`. -/
theorem extend_truncate_extend (s : S) (rel : RelTag) (N M s0 : Nat)
    (h0 : rel.relnode ≠ 0)
    (hex : getRelExists s rel .modified = .ok true)
    (hread : readRelSize s rel = .ok s0) (hMN : M < N) :
    ∃ s₃,
      (do
        let s₁ ← putRelExtend s rel N
        let s₂ ← putRelTruncation s₁ rel M
        putRelExtend s₂ rel N) = .ok s₃ ∧
      readRelSize s₃ rel = .ok N ∧
      s₃.m.pendingNblocks = s.m.pendingNblocks + ((N : Int) - (s0 : Int)) := by
  by_cases hsN : s0 < N
  · obtain ⟨s₁, e1, r1, d1, c1, l1, _, _⟩ := putRelExtend_spec s rel N s0 h0 hread hsN
    have hex1 : getRelExists s₁ rel .modified = .ok true := by
      refine getRelExists_cache_hit s₁ rel s.m.lsn N h0 c1 ?_
      rw [l1]
    obtain ⟨s₂, e2, r2, d2, c2, l2, _, _⟩ :=
      putRelTruncation_spec s₁ rel M N h0 hex1 r1
    obtain ⟨s₃, e3, r3, d3, _, _, _, _⟩ :=
      putRelExtend_spec s₂ rel N M h0 r2 hMN
    refine ⟨s₃, ?_, r3, ?_⟩
    · show (putRelExtend s rel N >>= fun s₁ =>
        putRelTruncation s₁ rel M >>= fun s₂ => putRelExtend s₂ rel N) = .ok s₃
      rw [e1]
      show (putRelTruncation s₁ rel M >>= fun s₂ => putRelExtend s₂ rel N) = .ok s₃
      rw [e2]
      exact e3
    · rw [d3, d2, d1]; ring
  · have hNs : N ≤ s0 := by omega
    have e1 := putRelExtend_noop s rel N s0 h0 hread hNs
    obtain ⟨s₂, e2, r2, d2, c2, l2, _, _⟩ :=
      putRelTruncation_spec s rel M s0 h0 hex hread
    obtain ⟨s₃, e3, r3, d3, _, _, _, _⟩ :=
      putRelExtend_spec s₂ rel N M h0 r2 hMN
    refine ⟨s₃, ?_, r3, ?_⟩
    · show (putRelExtend s rel N >>= fun s₁ =>
        putRelTruncation s₁ rel M >>= fun s₂ => putRelExtend s₂ rel N) = .ok s₃
      rw [e1]
      show (putRelTruncation s rel M >>= fun s₂ => putRelExtend s₂ rel N) = .ok s₃
      rw [e2]
      exact e3
    · rw [d3, d2]; ring

theorem extend_truncate_extend_witness :
    (RelTag.mk 1 1 4 0).relnode ≠ 0 ∧
    getRelExists c2S c2Tag .modified = .ok true ∧
    readRelSize c2S c2Tag = .ok 5 ∧ (3 : Nat) < 5 ∧
    ∃ s₃,
      (do
        let s₁ ← putRelExtend c2S c2Tag 5
        let s₂ ← putRelTruncation s₁ c2Tag 3
        putRelExtend s₂ c2Tag 5) = .ok s₃ ∧
      readRelSize s₃ c2Tag = .ok 5 ∧
      s₃.m.pendingNblocks = c2S.m.pendingNblocks + ((5 : Int) - (5 : Int)) :=
  ⟨by decide, by rfl, by rfl, by decide,
    extend_truncate_extend c2S c2Tag 5 3 5 (by decide) (by rfl) (by rfl)
      (by decide)⟩

/-- C8 counterexample: starting from a relation of size 5, extend to 7,
truncate to 3, extend back to 7 ends with reported size 7 but a cumulative
block-count delta of 2 (= 7 - 5), not zero as the claim states for every
pair M < N. -/
theorem extend_truncate_extend_delta_nonzero :
    ((do
        let s₁ ← putRelExtend c2S c2Tag 7
        let s₂ ← putRelTruncation s₁ c2Tag 3
        putRelExtend s₂ c2Tag 7).map
      (fun s₃ => (readRelSize s₃ c2Tag, s₃.m.pendingNblocks))
      = .ok (.ok 7, 2)) ∧
    c2S.m.pendingNblocks = 0 ∧ (2 : Int) ≠ 0 :=
  ⟨by rfl, by rfl, by decide⟩

end PgDatadir

namespace PgDatadir

/-- C9 (amended): once the transaction's pending block-count delta has
reached the 10000-block threshold, a successful `flush` hands the
accumulated data batch (if any) and the pending counter deltas to the
storage writer and clears them from the transaction, while the pending
metadata overlay and the committed store are retained unchanged. -/
theorem flush_effects (s : S) (h : 10000 ≤ s.m.pendingNblocks) :
    (flush s).m.pendingMetadataPages = s.m.pendingMetadataPages ∧
    (flush s).m.pendingDataBatch = none ∧
    (flush s).m.pendingNblocks = 0 ∧
    (flush s).m.pendingDirectoryEntries = [] ∧
    (flush s).tline.store = s.tline.store ∧
    (flush s).m.pendingDeletions = s.m.pendingDeletions ∧
    (flush s).tline.writerLog = s.tline.writerLog ++
      (match s.m.pendingDataBatch with
       | some b => [WriterEvent.putBatch b]
       | none => []) ++
      [WriterEvent.updateLogicalSize (s.m.pendingNblocks * (BLCKSZ : Int))] ++
      (s.m.pendingDirectoryEntries.map
        (fun e => WriterEvent.updateDirEntries e.1 e.2)) := by
  have hnl : ¬ (s.m.pendingNblocks < 10000) := by omega
  have hne : s.m.pendingNblocks ≠ 0 := by omega
  unfold flush
  rw [if_neg hnl]
  cases hb : s.m.pendingDataBatch with
  | some b => simp [hb, hne, List.append_assoc]
  | none => simp [hb, hne, List.append_assoc]

/-- C9 witness fixture: a transaction over the threshold with a data
batch, a metadata overlay entry, and a directory counter delta. -/
def c9Batch : List (Key × Nat × Value) := [(c4Key, 10, .image (.raw 1))]
def c9Mod : Mod :=
  { mod0 with
    pendingNblocks := 10000
    pendingDataBatch := some c9Batch
    pendingMetadataPages := [(Key.dbdir, [(10, .image (.raw 2))])]
    pendingDirectoryEntries := [(DirKind.Rel, .Add 1)] }
def c9S : S := { tline := tline0, m := c9Mod }

theorem flush_effects_witness :
    (10000 : Int) ≤ c9S.m.pendingNblocks ∧
    ((flush c9S).m.pendingMetadataPages = c9S.m.pendingMetadataPages ∧
     (flush c9S).m.pendingDataBatch = none ∧
     (flush c9S).m.pendingNblocks = 0 ∧
     (flush c9S).m.pendingDirectoryEntries = [] ∧
     (flush c9S).tline.store = c9S.tline.store ∧
     (flush c9S).m.pendingDeletions = c9S.m.pendingDeletions ∧
     (flush c9S).tline.writerLog = c9S.tline.writerLog ++
       (match c9S.m.pendingDataBatch with
        | some b => [WriterEvent.putBatch b]
        | none => []) ++
       [WriterEvent.updateLogicalSize (c9S.m.pendingNblocks * (BLCKSZ : Int))] ++
       (c9S.m.pendingDirectoryEntries.map
         (fun e => WriterEvent.updateDirEntries e.1 e.2))) :=
  ⟨by decide, flush_effects c9S (by decide)⟩

/-- C9 counterexample fixture: a small transaction (delta below 10000)
holding a non-empty data batch. -/
def c9smallS : S :=
  { tline := tline0,
    m := { mod0 with pendingNblocks := 3, pendingDataBatch := some c9Batch } }

/-- C9 counterexample: below the 10000 pending-block threshold, `flush`
returns successfully but does nothing — the data batch is still pending
(not "gone"), and nothing at all was handed to the storage writer. -/
theorem flush_below_threshold_noop :
    c9smallS.m.pendingDataBatch = some c9Batch ∧ c9Batch ≠ [] ∧
    flush c9smallS = c9smallS ∧
    (flush c9smallS).m.pendingDataBatch = some c9Batch ∧
    (flush c9smallS).tline.writerLog = [] :=
  ⟨by rfl, by decide, by rfl, by rfl, by rfl⟩

end PgDatadir

namespace PgDatadir

/-- C6: `find_gaps` with the unsharded identity: a first write of block 5
into an empty relation yields exactly the key range covering blocks
`[0,5)`; a rewrite of block 2 when 5 blocks already exist yields no gap;
a write of block 20 when 5 blocks exist yields exactly the gap `[5,20)`. -/
theorem find_gaps_examples (rel : RelTag) :
    find_gaps rel 5 0 ShardIdentity.unsharded
      = some ⟨[⟨rel_block_to_key rel 0, rel_block_to_key rel 5⟩]⟩ ∧
    find_gaps rel 2 5 ShardIdentity.unsharded = none ∧
    find_gaps rel 20 5 ShardIdentity.unsharded
      = some ⟨[⟨rel_block_to_key rel 5, rel_block_to_key rel 20⟩]⟩ := by
  refine ⟨?_, rfl, ?_⟩ <;>
    simp [find_gaps, ShardIdentity.unsharded, KeySpaceAccum.add_key,
      KeySpaceAccum.new, KeySpaceAccum.to_keyspace, rel_block_to_key,
      Key6.next, List.range', List.foldl]

end PgDatadir

namespace PgDatadir

/-- C1: the migration-state read policy of the relation-existence reads
(`get_rel_exists_in_reldir`, reached after the invalid-relnode check, a
size-cache miss and a successful dbdir-membership check) and of
`list_rels`.  `Legacy`, or a read LSN below `migrated_lsn`: the result is
exactly the v1 (dense directory) lookup.  `Migrating` at or above
`migrated_lsn`: the result is exactly the v1 lookup — the v2 lookup's
outcome (mismatch or failure) never influences it.  `Migrated` at or above
`migrated_lsn`: the result is exactly the v2 (sparse key) lookup,
including the propagation of any v2 failure. -/
theorem relexists_listrels_read_policy :
    (∀ (s : S) (tag : RelTag) (v : Version) (ml : Option Nat)
        (c : Option (Key × List (Nat × Nat))) (dbs : List ((Nat × Nat) × Bool)),
      s.tline.relSizeV2Status = (.Legacy, ml) →
      tag.relnode ≠ 0 →
      getCachedRelSize s.tline tag (versionLsn s v) = none →
      versionGet s v Key.dbdir = .ok (.dbdir dbs) →
      dbs.any (fun e => decide (e.1 = (tag.spcnode, tag.dbnode))) = true →
      getRelExistsInReldir s tag v c = getRelExistsV1 s tag v c) ∧
    (∀ (s : S) (spc db : Nat) (v : Version) (ml : Option Nat),
      s.tline.relSizeV2Status = (.Legacy, ml) →
      listRels s spc db v = listRelsV1 s spc db v) ∧
    (∀ (s : S) (tag : RelTag) (v : Version) (st : RelSizeMigration)
        (ml : Option Nat)
        (c : Option (Key × List (Nat × Nat))) (dbs : List ((Nat × Nat) × Bool)),
      s.tline.relSizeV2Status = (st, ml) →
      (st = .Migrating ∨ st = .Migrated) →
      versionLsn s v < ml.getD 0 →
      tag.relnode ≠ 0 →
      getCachedRelSize s.tline tag (versionLsn s v) = none →
      versionGet s v Key.dbdir = .ok (.dbdir dbs) →
      dbs.any (fun e => decide (e.1 = (tag.spcnode, tag.dbnode))) = true →
      getRelExistsInReldir s tag v c = getRelExistsV1 s tag v c) ∧
    (∀ (s : S) (spc db : Nat) (v : Version) (st : RelSizeMigration)
        (ml : Option Nat),
      s.tline.relSizeV2Status = (st, ml) →
      (st = .Migrating ∨ st = .Migrated) →
      versionLsn s v < ml.getD 0 →
      listRels s spc db v = listRelsV1 s spc db v) ∧
    (∀ (s : S) (tag : RelTag) (v : Version) (ml : Option Nat)
        (c : Option (Key × List (Nat × Nat))) (dbs : List ((Nat × Nat) × Bool)),
      s.tline.relSizeV2Status = (.Migrating, ml) →
      ¬ versionLsn s v < ml.getD 0 →
      tag.relnode ≠ 0 →
      getCachedRelSize s.tline tag (versionLsn s v) = none →
      versionGet s v Key.dbdir = .ok (.dbdir dbs) →
      dbs.any (fun e => decide (e.1 = (tag.spcnode, tag.dbnode))) = true →
      getRelExistsInReldir s tag v c = getRelExistsV1 s tag v c) ∧
    (∀ (s : S) (spc db : Nat) (v : Version) (ml : Option Nat),
      s.tline.relSizeV2Status = (.Migrating, ml) →
      ¬ versionLsn s v < ml.getD 0 →
      listRels s spc db v = listRelsV1 s spc db v) ∧
    (∀ (s : S) (tag : RelTag) (v : Version) (ml : Option Nat)
        (c : Option (Key × List (Nat × Nat))) (dbs : List ((Nat × Nat) × Bool)),
      s.tline.relSizeV2Status = (.Migrated, ml) →
      ¬ versionLsn s v < ml.getD 0 →
      tag.relnode ≠ 0 →
      getCachedRelSize s.tline tag (versionLsn s v) = none →
      versionGet s v Key.dbdir = .ok (.dbdir dbs) →
      dbs.any (fun e => decide (e.1 = (tag.spcnode, tag.dbnode))) = true →
      getRelExistsInReldir s tag v c = getRelExistsV2 s tag v) ∧
    (∀ (s : S) (spc db : Nat) (v : Version) (ml : Option Nat),
      s.tline.relSizeV2Status = (.Migrated, ml) →
      ¬ versionLsn s v < ml.getD 0 →
      listRels s spc db v = listRelsV2 s spc db) := by
  refine ⟨?_, ?_, ?_, ?_, ?_, ?_, ?_, ?_⟩
  · intro s tag v ml c dbs hst h0 hc hdb hmem
    unfold getRelExistsInReldir
    rw [if_neg h0, hc]
    simp only [hdb, hst, desDbDir, hmem, Except.bind, bind]
    simp
  · intro s spc db v ml hst
    unfold listRels
    rw [hst]
  · intro s tag v st ml c dbs hst hmig hlt h0 hc hdb hmem
    unfold getRelExistsInReldir
    rw [if_neg h0, hc]
    cases hmig with
    | inl h =>
      subst h
      simp only [hdb, hst, desDbDir, hmem, Except.bind, bind, if_pos hlt]
      simp
    | inr h =>
      subst h
      simp only [hdb, hst, desDbDir, hmem, Except.bind, bind, if_pos hlt]
      simp
  · intro s spc db v st ml hst hmig hlt
    unfold listRels
    rw [hst]
    cases hmig with
    | inl h => subst h; simp only [if_pos hlt]
    | inr h => subst h; simp only [if_pos hlt]
  · intro s tag v ml c dbs hst hge h0 hc hdb hmem
    unfold getRelExistsInReldir
    rw [if_neg h0, hc]
    simp only [hdb, hst, desDbDir, hmem, Except.bind, bind, if_neg hge]
    simp
  · intro s spc db v ml hst hge
    unfold listRels
    rw [hst]
    simp only [if_neg hge]
  · intro s tag v ml c dbs hst hge h0 hc hdb hmem
    unfold getRelExistsInReldir
    rw [if_neg h0, hc]
    simp only [hdb, hst, desDbDir, hmem, Except.bind, bind, if_neg hge]
    simp
  · intro s spc db v ml hst hge
    unfold listRels
    rw [hst]
    simp only [if_neg hge]

end PgDatadir

namespace PgDatadir

/-- C1 witness fixtures: one committed store carrying a dbdir, a dense
reldir and a sparse v2 entry for relation `(1,1,4,0)`, under each of the
three migration states (`migrated_lsn = 15` once migrating). -/
def c1Store : Store :=
  [(Key.dbdir, .ok (.dbdir [((1, 1), true)])),
   (Key.reldir 1 1, .ok (.reldir [(4, 0)])),
   (Key.relSparse 1 1 4 0, .ok (.relStatus .Exists))]
def c1Leg : S :=
  { tline := { tline0 with store := c1Store }, m := mod0 }
def c1MigT : Tline :=
  { tline0 with
    store := c1Store
    relSizeV2Status := (.Migrating, some 15) }
def c1MigdT : Tline :=
  { tline0 with
    store := c1Store
    relSizeV2Status := (.Migrated, some 15) }
def c1Mig : S := { tline := c1MigT, m := mod0 }
def c1Migd : S := { tline := c1MigdT, m := mod0 }
def c1Tag : RelTag := RelTag.mk 1 1 4 0
def c1Dbs : List ((Nat × Nat) × Bool) := [((1, 1), true)]

theorem relexists_listrels_read_policy_witness :
    (getRelExistsInReldir c1Leg c1Tag (.lsnRange 20 20) none
      = getRelExistsV1 c1Leg c1Tag (.lsnRange 20 20) none) ∧
    (listRels c1Leg 1 1 (.lsnRange 20 20)
      = listRelsV1 c1Leg 1 1 (.lsnRange 20 20)) ∧
    (getRelExistsInReldir c1Mig c1Tag (.lsnRange 10 10) none
      = getRelExistsV1 c1Mig c1Tag (.lsnRange 10 10) none) ∧
    (listRels c1Mig 1 1 (.lsnRange 10 10)
      = listRelsV1 c1Mig 1 1 (.lsnRange 10 10)) ∧
    (getRelExistsInReldir c1Mig c1Tag (.lsnRange 20 20) none
      = getRelExistsV1 c1Mig c1Tag (.lsnRange 20 20) none) ∧
    (listRels c1Mig 1 1 (.lsnRange 20 20)
      = listRelsV1 c1Mig 1 1 (.lsnRange 20 20)) ∧
    (getRelExistsInReldir c1Migd c1Tag (.lsnRange 20 20) none
      = getRelExistsV2 c1Migd c1Tag (.lsnRange 20 20)) ∧
    (listRels c1Migd 1 1 (.lsnRange 20 20) = listRelsV2 c1Migd 1 1) :=
  ⟨relexists_listrels_read_policy.1 c1Leg c1Tag (.lsnRange 20 20) none none
      c1Dbs rfl (by decide) rfl rfl (by decide),
   relexists_listrels_read_policy.2.1 c1Leg 1 1 (.lsnRange 20 20) none rfl,
   relexists_listrels_read_policy.2.2.1 c1Mig c1Tag (.lsnRange 10 10)
      .Migrating (some 15) none c1Dbs rfl (Or.inl rfl) (by decide) (by decide)
      rfl rfl (by decide),
   relexists_listrels_read_policy.2.2.2.1 c1Mig 1 1 (.lsnRange 10 10)
      .Migrating (some 15) rfl (Or.inl rfl) (by decide),
   relexists_listrels_read_policy.2.2.2.2.1 c1Mig c1Tag (.lsnRange 20 20)
      (some 15) none c1Dbs rfl (by decide) (by decide) rfl rfl (by decide),
   relexists_listrels_read_policy.2.2.2.2.2.1 c1Mig 1 1 (.lsnRange 20 20)
      (some 15) rfl (by decide),
   relexists_listrels_read_policy.2.2.2.2.2.2.1 c1Migd c1Tag (.lsnRange 20 20)
      (some 15) none c1Dbs rfl (by decide) (by decide) rfl rfl (by decide),
   relexists_listrels_read_policy.2.2.2.2.2.2.2 c1Migd 1 1 (.lsnRange 20 20)
      (some 15) rfl (by decide)⟩

end PgDatadir

namespace PgDatadir

/-- A key that is not a sparse reldir-v2 key. -/
def notSparse : Key → Prop
  | .relSparse _ _ _ _ => False
  | _ => True

theorem lookup_filter_ne (tag : RelTag) (l : List (RelTag × (Nat × Nat))) :
    (l.filter (fun e => !decide (e.1 = tag))).lookup tag = none := by
  induction l with
  | nil => simp [List.lookup]
  | cons hd tl ih =>
    obtain ⟨t, p⟩ := hd
    by_cases ht : t = tag
    · subst ht
      simp only [List.filter, decide_eq_true_eq]
      simp [ih]
    · have h1 : (!decide ((t, p).1 = tag)) = true := by simp [ht]
      rw [List.filter_cons, if_pos h1]
      have hbeq : (tag == t) = false := by
        simp only [beq_eq_false_iff_ne, ne_eq]
        exact fun h => ht h.symm
      simp only [List.lookup, hbeq]
      exact ih

/-- The v2 drop loop never touches the timeline state, the pending
deletions, the block-count delta, the LSN, or the transaction's view of
any non-sparse key; it only appends directory-counter updates and writes
sparse tombstones. -/
theorem dropRelsV2Go_frame (spc db : Nat) (l : List RelTag) :
    ∀ (s : S) (dropped : List RelTag),
      (dropRelsV2Go spc db s dropped l).1.tline = s.tline ∧
      (dropRelsV2Go spc db s dropped l).1.m.pendingDeletions
        = s.m.pendingDeletions ∧
      (dropRelsV2Go spc db s dropped l).1.m.pendingNblocks
        = s.m.pendingNblocks ∧
      (dropRelsV2Go spc db s dropped l).1.m.lsn = s.m.lsn ∧
      ∀ (k : Key), notSparse k →
        modGet (dropRelsV2Go spc db s dropped l).1 k = modGet s k := by
  induction l with
  | nil => intro s dropped; exact ⟨rfl, rfl, rfl, rfl, fun _ _ => rfl⟩
  | cons relTag rest ih =>
    intro s dropped
    simp only [dropRelsV2Go]
    cases hraw : modSparseGet s (Key.relSparse spc db relTag.relnode relTag.forknum) with
    | error e => simp [hraw, notSparse]
    | ok raw =>
      simp only [hraw]
      cases hdec : relDirExistsDecodeOption raw with
      | error e => exact ⟨rfl, rfl, rfl, rfl, fun _ _ => rfl⟩
      | ok val =>
        by_cases hv : val = RelDirExists.Exists
        · simp only [if_pos hv]
          set key := Key.relSparse spc db relTag.relnode relTag.forknum with hkey
          set s₁ : S := { s with m := { s.m with pendingDirectoryEntries :=
            s.m.pendingDirectoryEntries
              ++ [(DirKind.RelV2, MetricsUpdate.Sub 1)] } } with hs₁
          set s₂ : S := sPut s₁ key (.image (.relStatus .Removed)) with hs₂
          obtain ⟨i1, i2, i3, i4, i5⟩ := ih s₂ (dropped ++ [relTag])
          refine ⟨?_, ?_, ?_, ?_, ?_⟩
          · rw [i1, hs₂, sPut_tline]
          · rw [i2, hs₂, sPut_pendingDeletions]
          · rw [i3, hs₂, sPut_pendingNblocks]
          · rw [i4, hs₂, sPut_lsn]
          · intro k hk
            rw [i5 k hk, hs₂]
            have hne : k ≠ key := by
              intro h
              rw [hkey] at h
              subst h
              exact hk
            rw [modGet_sPut_other s₁ key k _ hne]
            exact modGet_congr s₁ s k rfl rfl
        · simp only [if_neg hv]
          exact ih s dropped

/-- `put_rel_drop_v2` over a whole drop map: same frame as the loop. -/
theorem putRelDropV2_frame (dr : List ((Nat × Nat) × List RelTag)) :
    ∀ (s : S),
      (putRelDropV2 s dr).1.tline = s.tline ∧
      (putRelDropV2 s dr).1.m.pendingDeletions = s.m.pendingDeletions ∧
      (putRelDropV2 s dr).1.m.pendingNblocks = s.m.pendingNblocks ∧
      (putRelDropV2 s dr).1.m.lsn = s.m.lsn ∧
      ∀ (k : Key), notSparse k →
        modGet (putRelDropV2 s dr).1 k = modGet s k := by
  induction dr with
  | nil => intro s; exact ⟨rfl, rfl, rfl, rfl, fun _ _ => rfl⟩
  | cons hd rest ih =>
    intro s
    obtain ⟨⟨spc, db⟩, relTags⟩ := hd
    obtain ⟨g1, g2, g3, g4, g5⟩ := dropRelsV2Go_frame spc db relTags s []
    simp only [putRelDropV2]
    cases hgo : dropRelsV2Go spc db s [] relTags with
    | mk s' res =>
      rw [hgo] at g1 g2 g3 g4 g5
      cases res with
      | error e => exact ⟨g1, g2, g3, g4, g5⟩
      | ok dropped =>
        obtain ⟨j1, j2, j3, j4, j5⟩ := ih s'
        simp only []
        cases hrec : putRelDropV2 s' rest with
        | mk s'' res' =>
          rw [hrec] at j1 j2 j3 j4 j5
          cases res' with
          | error e =>
            exact ⟨j1.trans g1, j2.trans g2, j3.trans g3, j4.trans g4,
              fun k hk => (j5 k hk).trans (g5 k hk)⟩
          | ok dr' =>
            exact ⟨j1.trans g1, j2.trans g2, j3.trans g3, j4.trans g4,
              fun k hk => (j5 k hk).trans (g5 k hk)⟩

end PgDatadir

namespace PgDatadir

theorem modGet_set_dirEntries (s : S) (es : List (DirKind × MetricsUpdate))
    (k : Key) :
    modGet { tline := s.tline,
             m := { s.m with pendingDirectoryEntries := es } } k = modGet s k :=
  modGet_congr _ s k rfl rfl

/-- Effects of `put_rel_drop_v1` on a present relation: directory entry
erased and written back, counter decremented, running delta decreased by
the last known size, cache entry evicted, and the whole-relation range
deletion recorded at the transaction's LSN. -/
theorem putRelDropV1_singleton (s : S) (spc db : Nat) (rel : RelTag)
    (dir : List (Nat × Nat)) (sz : Nat)
    (hdir : modGet s (Key.reldir spc db) = .ok (.reldir dir))
    (hmem : (rel.relnode, rel.forknum) ∈ dir)
    (hsz : modGet s (Key.relSize rel) = .ok (.sz sz)) :
    ∃ s', putRelDropV1 s [((spc, db), [rel])] = .ok (s', [rel]) ∧
      s'.m.pendingDeletions
        = s.m.pendingDeletions ++ [(DelRange.relRange rel, s.m.lsn)] ∧
      s'.m.pendingNblocks = s.m.pendingNblocks - (sz : Int) ∧
      s'.tline.relSizeLatestCache.lookup rel = none ∧
      s'.m.lsn = s.m.lsn ∧
      s'.m.pendingDirectoryEntries = s.m.pendingDirectoryEntries
        ++ [(DirKind.Rel, MetricsUpdate.Sub 1)] ∧
      modGet s' (Key.reldir spc db)
        = .ok (.reldir (dir.erase (rel.relnode, rel.forknum))) := by
  simp only [putRelDropV1]
  rw [hdir]
  simp only [desRelDir, dropRelsV1Go, if_pos hmem]
  rw [modGet_set_dirEntries, hsz]
  simp only [asSize]
  refine ⟨_, rfl, ?_, ?_, ?_, ?_, ?_, ?_⟩
  · simp [sPut, modPut, putMetadata, isDataKey, modDelete]
  · simp [sPut, modPut, putMetadata, isDataKey, modDelete]
  · simp [sPut, modPut, putMetadata, isDataKey, modDelete, removeCachedRelSize,
      lookup_filter_ne]
  · simp [sPut, modPut, putMetadata, isDataKey, modDelete]
  · simp [sPut, modPut, putMetadata, isDataKey, modDelete]
  · simp only [if_true]
    exact modGet_sPut_same _ _ _ rfl

theorem maybeEnable_currentStatus (s : S) (x : Bool) :
    (maybeEnableRelSizeV2 s x).currentStatus = s.tline.relSizeV2Status.1 := by
  unfold maybeEnableRelSizeV2
  cases hc : s.tline.relSizeV2Enabled <;>
    cases hs : s.tline.relSizeV2Status.1 <;> simp [hc, hs]

/-- C3 (amended): dropping an existing relation through `put_rel_drops`
removes its directory entry, records the whole-relation range deletion
(size key plus all block keys), decrements the running block-count delta
by the last known size, and evicts the size-cache entry — in the `Legacy`
and `Migrating` states, where the v1 drop path runs (in `Migrating` the
extra v2 pass touches none of these).  In the `Migrated` state none of
that happens: only the sparse tombstone is written and the v2 directory
counter decremented; no range deletion is recorded, the delta is
unchanged, and the cache entry stays. -/
theorem put_rel_drops_effects :
    (∀ (s : S) (spc db : Nat) (rel : RelTag) (dir : List (Nat × Nat))
        (sz : Nat) (ml : Option Nat),
      s.tline.relSizeV2Status = (.Legacy, ml) →
      modGet s (Key.reldir spc db) = .ok (.reldir dir) →
      (rel.relnode, rel.forknum) ∈ dir →
      modGet s (Key.relSize rel) = .ok (.sz sz) →
      ∃ s', putRelDrops s [((spc, db), [rel])] = .ok s' ∧
        s'.m.pendingDeletions
          = s.m.pendingDeletions ++ [(DelRange.relRange rel, s.m.lsn)] ∧
        DelRange.covers (DelRange.relRange rel) (Key.relSize rel) ∧
        (∀ b, DelRange.covers (DelRange.relRange rel) (Key.relBlock rel b)) ∧
        s'.m.pendingNblocks = s.m.pendingNblocks - (sz : Int) ∧
        s'.tline.relSizeLatestCache.lookup rel = none ∧
        modGet s' (Key.reldir spc db)
          = .ok (.reldir (dir.erase (rel.relnode, rel.forknum)))) ∧
    (∀ (s : S) (spc db : Nat) (rel : RelTag) (dir : List (Nat × Nat))
        (sz : Nat) (ml : Option Nat),
      s.tline.relSizeV2Status = (.Migrating, ml) →
      modGet s (Key.reldir spc db) = .ok (.reldir dir) →
      (rel.relnode, rel.forknum) ∈ dir →
      modGet s (Key.relSize rel) = .ok (.sz sz) →
      ∃ s', putRelDrops s [((spc, db), [rel])] = .ok s' ∧
        s'.m.pendingDeletions
          = s.m.pendingDeletions ++ [(DelRange.relRange rel, s.m.lsn)] ∧
        s'.m.pendingNblocks = s.m.pendingNblocks - (sz : Int) ∧
        s'.tline.relSizeLatestCache.lookup rel = none ∧
        modGet s' (Key.reldir spc db)
          = .ok (.reldir (dir.erase (rel.relnode, rel.forknum)))) ∧
    (∀ (s : S) (spc db : Nat) (rel : RelTag) (ml : Option Nat),
      s.tline.relSizeV2Status = (.Migrated, ml) →
      modSparseGet s (Key.relSparse spc db rel.relnode rel.forknum)
        = .ok (some (.relStatus .Exists)) →
      ∃ s', putRelDrops s [((spc, db), [rel])] = .ok s' ∧
        s'.tline = s.tline ∧
        s'.m.pendingDeletions = s.m.pendingDeletions ∧
        s'.m.pendingNblocks = s.m.pendingNblocks ∧
        modGet s' (Key.relSparse spc db rel.relnode rel.forknum)
          = .ok (.relStatus .Removed) ∧
        s'.m.pendingDirectoryEntries = s.m.pendingDirectoryEntries
          ++ [(DirKind.RelV2, MetricsUpdate.Sub 1)]) := by
  refine ⟨?_, ?_, ?_⟩
  · intro s spc db rel dir sz ml hst hdir hmem hsz
    have hcs : (maybeEnableRelSizeV2 s false).currentStatus = .Legacy := by
      rw [maybeEnable_currentStatus, hst]
    obtain ⟨s₅, h5, d5, n5, c5, l5, _, g5⟩ :=
      putRelDropV1_singleton s spc db rel dir sz hdir hmem hsz
    refine ⟨s₅, ?_, d5, rfl, fun _ => rfl, n5, c5, g5⟩
    simp only [putRelDrops, hcs, h5]
  · intro s spc db rel dir sz ml hst hdir hmem hsz
    have hcs : (maybeEnableRelSizeV2 s false).currentStatus = .Migrating := by
      rw [maybeEnable_currentStatus, hst]
    obtain ⟨s₅, h5, d5, n5, c5, l5, _, g5⟩ :=
      putRelDropV1_singleton s spc db rel dir sz hdir hmem hsz
    obtain ⟨f1, f2, f3, f4, f5⟩ :=
      putRelDropV2_frame [((spc, db), [rel])] s₅
    cases hp : putRelDropV2 s₅ [((spc, db), [rel])] with
    | mk sv rv =>
      rw [hp] at f1 f2 f3 f4 f5
      refine ⟨sv, ?_, ?_, ?_, ?_, ?_⟩
      · simp only [putRelDrops, hcs, h5, hp]
      · rw [f2, d5]
      · rw [f3, n5]
      · rw [f1, c5]
      · rw [f5 (Key.reldir spc db) trivial, g5]
  · intro s spc db rel ml hst hsp
    have hcs : (maybeEnableRelSizeV2 s false).currentStatus = .Migrated := by
      rw [maybeEnable_currentStatus, hst]
    refine ⟨sPut { s with m := { s.m with pendingDirectoryEntries :=
        s.m.pendingDirectoryEntries ++ [(DirKind.RelV2, MetricsUpdate.Sub 1)] } }
        (Key.relSparse spc db rel.relnode rel.forknum)
        (.image (.relStatus .Removed)), ?_, ?_, ?_, ?_, ?_, ?_⟩
    · simp only [putRelDrops, hcs, putRelDropV2, dropRelsV2Go]
      rw [hsp]
      simp [relDirExistsDecodeOption]
    · rw [sPut_tline]
    · rw [sPut_pendingDeletions]
    · rw [sPut_pendingNblocks]
    · exact modGet_sPut_same _ _ _ rfl
    · rw [sPut_pendingDirectoryEntries]

end PgDatadir

namespace PgDatadir

/-- C3 fixtures: relation `(1,2,6,0)` of size 5, present in both the
dense directory and the sparse keyspace, with a latest-cache entry. -/
def c3Tag : RelTag := RelTag.mk 1 2 6 0
def c3Store : Store :=
  [(Key.dbdir, .ok (.dbdir [((1, 2), true)])),
   (Key.reldir 1 2, .ok (.reldir [(6, 0)])),
   (Key.relSize c3Tag, .ok (.sz 5)),
   (Key.relSparse 1 2 6 0, .ok (.relStatus .Exists))]
def c3LegT : Tline :=
  { tline0 with store := c3Store, relSizeLatestCache := [(c3Tag, (0, 5))] }
def c3MigT : Tline :=
  { c3LegT with relSizeV2Status := (.Migrating, some 0) }
def c3MigdT : Tline :=
  { c3LegT with relSizeV2Status := (.Migrated, some 0) }
def c3LegS : S := { tline := c3LegT, m := mod0 }
def c3MigS : S := { tline := c3MigT, m := mod0 }
def c3MigdS : S := { tline := c3MigdT, m := mod0 }
def c3Drop : List ((Nat × Nat) × List RelTag) := [((1, 2), [c3Tag])]

/-- C3 counterexample: in the `Migrated` state, dropping an existing
relation (it exists: the cache and the sparse entry say so; its last known
size is 5) records NO pending range deletion, does NOT decrement the
running block-count delta, and does NOT evict the size-cache entry — so
the claimed effects do not hold "in every migration state". -/
theorem put_rel_drops_migrated_no_reclaim :
    getRelExists c3MigdS c3Tag .modified = .ok true ∧
    readRelSize c3MigdS c3Tag = .ok 5 ∧
    c3MigdS.m.pendingNblocks = 0 ∧
    (putRelDrops c3MigdS c3Drop).map
      (fun s' => (s'.m.pendingDeletions, s'.m.pendingNblocks,
        s'.tline.relSizeLatestCache.lookup c3Tag))
      = .ok ([], 0, some (0, 5)) :=
  ⟨by rfl, by rfl, by rfl, by rfl⟩

theorem put_rel_drops_effects_witness :
    (∃ s', putRelDrops c3LegS c3Drop = .ok s' ∧
      s'.m.pendingDeletions = c3LegS.m.pendingDeletions
        ++ [(DelRange.relRange c3Tag, c3LegS.m.lsn)] ∧
      DelRange.covers (DelRange.relRange c3Tag) (Key.relSize c3Tag) ∧
      (∀ b, DelRange.covers (DelRange.relRange c3Tag) (Key.relBlock c3Tag b)) ∧
      s'.m.pendingNblocks = c3LegS.m.pendingNblocks - ((5 : Nat) : Int) ∧
      s'.tline.relSizeLatestCache.lookup c3Tag = none ∧
      modGet s' (Key.reldir 1 2)
        = .ok (.reldir ([(6, 0)].erase (c3Tag.relnode, c3Tag.forknum)))) ∧
    (∃ s', putRelDrops c3MigS c3Drop = .ok s' ∧
      s'.m.pendingDeletions = c3MigS.m.pendingDeletions
        ++ [(DelRange.relRange c3Tag, c3MigS.m.lsn)] ∧
      s'.m.pendingNblocks = c3MigS.m.pendingNblocks - ((5 : Nat) : Int) ∧
      s'.tline.relSizeLatestCache.lookup c3Tag = none ∧
      modGet s' (Key.reldir 1 2)
        = .ok (.reldir ([(6, 0)].erase (c3Tag.relnode, c3Tag.forknum)))) ∧
    (∃ s', putRelDrops c3MigdS c3Drop = .ok s' ∧
      s'.tline = c3MigdS.tline ∧
      s'.m.pendingDeletions = c3MigdS.m.pendingDeletions ∧
      s'.m.pendingNblocks = c3MigdS.m.pendingNblocks ∧
      modGet s' (Key.relSparse 1 2 c3Tag.relnode c3Tag.forknum)
        = .ok (.relStatus .Removed) ∧
      s'.m.pendingDirectoryEntries = c3MigdS.m.pendingDirectoryEntries
        ++ [(DirKind.RelV2, MetricsUpdate.Sub 1)]) :=
  ⟨put_rel_drops_effects.1 c3LegS 1 2 c3Tag [(6, 0)] 5 none rfl (by rfl)
      (by decide) (by rfl),
   put_rel_drops_effects.2.1 c3MigS 1 2 c3Tag [(6, 0)] 5 (some 0) rfl (by rfl)
      (by decide) (by rfl),
   put_rel_drops_effects.2.2 c3MigdS 1 2 c3Tag (some 0) rfl (by rfl)⟩

end PgDatadir

namespace PgDatadir

/-- A well-formed gap range of `find_gaps`: a contiguous run of block keys
of one relation, all of whose covered keys satisfy `P`. -/
def GoodR (rel : RelTag) (P : Key6 → Prop) (r : KeyRange6) : Prop :=
  ∃ a b, a < b ∧ r.start = rel_block_to_key rel a ∧
    r.stop = rel_block_to_key rel b ∧
    ∀ c, a ≤ c → c < b → P (rel_block_to_key rel c)

/-- Invariant of the gap accumulator: every emitted range and the range
being grown are well-formed. -/
def InvA (rel : RelTag) (P : Key6 → Prop) (a : KeySpaceAccum) : Prop :=
  (∀ r ∈ a.ranges, GoodR rel P r) ∧ (∀ r, a.accum = some r → GoodR rel P r)

/-- Invariant lifted to the optional accumulator of the `find_gaps` loop. -/
def InvO (rel : RelTag) (P : Key6 → Prop) : Option KeySpaceAccum → Prop
  | none => True
  | some a => InvA rel P a

theorem key6_next_base (rel : RelTag) (i : Nat) :
    (rel_block_to_key rel i).next = rel_block_to_key rel (i + 1) := rfl

theorem add_key_inv (rel : RelTag) (P : Key6 → Prop) (a : KeySpaceAccum)
    (i : Nat) (ha : InvA rel P a) (hp : P (rel_block_to_key rel i)) :
    InvA rel P (a.add_key (rel_block_to_key rel i)) := by
  obtain ⟨hranges, haccum⟩ := ha
  obtain ⟨acc, rngs⟩ := a
  cases acc with
  | none =>
    simp only [KeySpaceAccum.add_key]
    refine ⟨hranges, fun r hr => ?_⟩
    simp only [Option.some.injEq] at hr
    subst hr
    exact ⟨i, i + 1, by omega, rfl, key6_next_base rel i,
      fun c h1 h2 => by rw [show c = i by omega]; exact hp⟩
  | some r0 =>
    simp only [KeySpaceAccum.add_key]
    obtain ⟨a', b', hab, hstart, hstop, hall⟩ := haccum r0 rfl
    by_cases hco : r0.stop = rel_block_to_key rel i
    · rw [if_pos hco]
      refine ⟨hranges, fun r hr => ?_⟩
      simp only [Option.some.injEq] at hr
      subst hr
      have hbi : b' = i := by
        have := hstop.symm.trans hco
        exact congrArg Key6.field6 this
      refine ⟨a', i + 1, by omega, hstart, key6_next_base rel i, ?_⟩
      intro c h1 h2
      by_cases hci : c = i
      · subst hci; exact hp
      · exact hall c h1 (by omega)
    · rw [if_neg hco]
      refine ⟨?_, fun r hr => ?_⟩
      · intro r hr
        rcases List.mem_append.1 hr with h | h
        · exact hranges r h
        · simp only [List.mem_singleton] at h
          subst h
          exact ⟨a', b', hab, hstart, hstop, hall⟩
      · simp only [Option.some.injEq] at hr
        subst hr
        exact ⟨i, i + 1, by omega, rfl, key6_next_base rel i,
          fun c h1 h2 => by rw [show c = i by omega]; exact hp⟩

theorem find_gaps_fold_inv (rel : RelTag) (blkno : Nat)
    (shard : ShardIdentity) (l : List Nat) :
    ∀ (acc : Option KeySpaceAccum),
      InvO rel (fun k => shard.shardOf k = shard.number) acc →
      InvO rel (fun k => shard.shardOf k = shard.number)
        (l.foldl
          (fun acc gapBlkno =>
            let k := { rel_block_to_key rel blkno with field6 := gapBlkno }
            if shard.shardOf k ≠ shard.number then acc
            else some ((acc.getD KeySpaceAccum.new).add_key k))
          acc) := by
  induction l with
  | nil => intro acc h; exact h
  | cons j rest ih =>
    intro acc h
    rw [List.foldl_cons]
    by_cases hj : shard.shardOf
        { rel_block_to_key rel blkno with field6 := j } ≠ shard.number
    · simp only [if_pos hj]
      exact ih acc h
    · simp only [if_neg hj]
      have hp : shard.shardOf (rel_block_to_key rel j) = shard.number := by
        have := not_not.1 hj
        exact this
      refine ih _ ?_
      show InvA rel _ ((acc.getD KeySpaceAccum.new).add_key
        { rel_block_to_key rel blkno with field6 := j })
      have hbase : ({ rel_block_to_key rel blkno with field6 := j } : Key6)
          = rel_block_to_key rel j := rfl
      rw [hbase]
      cases acc with
      | none =>
        refine add_key_inv rel _ KeySpaceAccum.new j ?_ hp
        exact ⟨fun r hr => absurd hr (List.not_mem_nil r), fun r hr => by
          exact absurd hr (by simp [KeySpaceAccum.new])⟩
      | some a =>
        exact add_key_inv rel _ a j h hp

/-- C7: every key in the keyspace returned by `find_gaps` is owned by the
calling shard according to the sharding function — for every relation,
block number, previous block count, and shard identity. -/
theorem find_gaps_shard_ownership (rel : RelTag) (blkno prev : Nat)
    (shard : ShardIdentity) (ks : KeySpace6) (r : KeyRange6) (k : Key6)
    (hks : find_gaps rel blkno prev shard = some ks)
    (hr : r ∈ ks.ranges) (hk : k ∈ r.blockKeys) :
    shard.shardOf k = shard.number := by
  unfold find_gaps at hks
  have hks2 : ((List.range' prev (blkno - prev)).foldl
      (fun acc gapBlkno =>
        let k := { rel_block_to_key rel blkno with field6 := gapBlkno }
        if shard.shardOf k ≠ shard.number then acc
        else some ((acc.getD KeySpaceAccum.new).add_key k))
      none).map KeySpaceAccum.to_keyspace = some ks := hks
  clear hks
  cases hF : (List.range' prev (blkno - prev)).foldl
      (fun acc gapBlkno =>
        let k := { rel_block_to_key rel blkno with field6 := gapBlkno }
        if shard.shardOf k ≠ shard.number then acc
        else some ((acc.getD KeySpaceAccum.new).add_key k))
      none with
  | none => rw [hF] at hks2; exact absurd hks2 (by simp)
  | some a =>
    rw [hF] at hks2
    simp only [Option.map_some', Option.some.injEq] at hks2
    subst hks2
    have hinv : InvA rel (fun k => shard.shardOf k = shard.number) a := by
      have := find_gaps_fold_inv rel blkno shard
        (List.range' prev (blkno - prev)) none trivial
      rw [hF] at this
      exact this
    obtain ⟨hranges, haccum⟩ := hinv
    have hgood : GoodR rel (fun k => shard.shardOf k = shard.number) r := by
      unfold KeySpaceAccum.to_keyspace at hr
      cases hacc : a.accum with
      | none => rw [hacc] at hr; exact hranges r hr
      | some r0 =>
        rw [hacc] at hr
        rcases List.mem_append.1 hr with h | h
        · exact hranges r h
        · simp only [List.mem_singleton] at h
          subst h
          exact haccum r hacc
    obtain ⟨a', b', hab, hstart, hstop, hall⟩ := hgood
    unfold KeyRange6.blockKeys at hk
    rw [hstart, hstop] at hk
    simp only [List.mem_map] at hk
    obtain ⟨c, hc, hkc⟩ := hk
    rw [List.mem_range'_1] at hc
    have hfa : (rel_block_to_key rel a').field6 = a' := rfl
    have hfb : (rel_block_to_key rel b').field6 = b' := rfl
    rw [hfa, hfb] at hc
    have hk' : k = rel_block_to_key rel c := by
      rw [← hkc]; rfl
    rw [hk']
    exact hall c (by omega) (by omega)

/-- C7 witness: a two-way split where shard 0 owns even block numbers;
the gaps for a write of block 4 into an empty relation are blocks 0 and 2,
and each returned key is owned by shard 0. -/
def evenShard : ShardIdentity := ⟨0, fun k => k.field6 % 2⟩
def c7Rel : RelTag := RelTag.mk 1 2 3 0

theorem find_gaps_shard_ownership_witness :
    find_gaps c7Rel 4 0 evenShard
      = some ⟨[⟨rel_block_to_key c7Rel 0, rel_block_to_key c7Rel 1⟩,
               ⟨rel_block_to_key c7Rel 2, rel_block_to_key c7Rel 3⟩]⟩ ∧
    (⟨rel_block_to_key c7Rel 0, rel_block_to_key c7Rel 1⟩ : KeyRange6)
      ∈ (⟨[⟨rel_block_to_key c7Rel 0, rel_block_to_key c7Rel 1⟩,
           ⟨rel_block_to_key c7Rel 2, rel_block_to_key c7Rel 3⟩]⟩
          : KeySpace6).ranges ∧
    rel_block_to_key c7Rel 0
      ∈ (⟨rel_block_to_key c7Rel 0, rel_block_to_key c7Rel 1⟩
          : KeyRange6).blockKeys ∧
    evenShard.shardOf (rel_block_to_key c7Rel 0) = evenShard.number :=
  ⟨by rfl, by decide, by decide,
    find_gaps_shard_ownership c7Rel 4 0 evenShard
      ⟨[⟨rel_block_to_key c7Rel 0, rel_block_to_key c7Rel 1⟩,
        ⟨rel_block_to_key c7Rel 2, rel_block_to_key c7Rel 3⟩]⟩
      ⟨rel_block_to_key c7Rel 0, rel_block_to_key c7Rel 1⟩
      (rel_block_to_key c7Rel 0) (by rfl) (by decide) (by decide)⟩

end PgDatadir

namespace PgDatadir

theorem probeScan_all_small (ts : Int) :
    ∀ (l : List Int), l ≠ [] → (∀ t ∈ l, t < ts) →
    ∀ fs fl, probeScan ts l fs fl = (true, fl, false) := by
  intro l
  induction l with
  | nil => intro h; exact absurd rfl h
  | cons t rest ih =>
    intro _ hall fs fl
    have ht : ¬ t ≥ ts := not_le.2 (hall t (List.mem_cons_self t rest))
    show (if t ≥ ts then (fs, true, true) else probeScan ts rest true fl)
      = (true, fl, false)
    rw [if_neg ht]
    cases rest with
    | nil => rfl
    | cons u us =>
      exact ih (by simp) (fun x hx => hall x (List.mem_cons_of_mem t hx)) true fl

theorem probeScan_all_large (ts : Int) (l : List Int) (hne : l ≠ [])
    (hall : ∀ t ∈ l, ts ≤ t) (fs fl : Bool) :
    probeScan ts l fs fl = (fs, true, true) := by
  cases l with
  | nil => exact absurd rfl hne
  | cons t rest =>
    have ht : t ≥ ts := hall t (List.mem_cons_self t rest)
    show (if t ≥ ts then (fs, true, true) else probeScan ts rest true fl)
      = (fs, true, true)
    rw [if_pos ht]

theorem probeScan_break (ts : Int) :
    ∀ (l : List Int), (∃ t ∈ l, ts ≤ t) →
    ∀ fs fl, ∃ fs', probeScan ts l fs fl = (fs', true, true) ∧
      (fs = true → fs' = true) := by
  intro l
  induction l with
  | nil => intro h; exact absurd h (by simp)
  | cons t rest ih =>
    intro hex fs fl
    by_cases ht : t ≥ ts
    · refine ⟨fs, ?_, fun h => h⟩
      show (if t ≥ ts then (fs, true, true) else probeScan ts rest true fl)
        = (fs, true, true)
      rw [if_pos ht]
    · have hex' : ∃ t ∈ rest, ts ≤ t := by
        obtain ⟨u, hu, hut⟩ := hex
        rcases List.mem_cons.1 hu with h | h
        · subst h; exact absurd hut ht
        · exact ⟨u, h, hut⟩
      obtain ⟨fs', hps, himp⟩ := ih hex' true fl
      have hfs' : fs' = true := himp rfl
      refine ⟨fs', ?_, fun _ => hfs'⟩
      show (if t ≥ ts then (fs, true, true) else probeScan ts rest true fl)
        = (fs', true, true)
      rw [if_neg ht]
      exact hps

/-- If every probe point in `[low, high)` sees a non-empty list of
timestamps that are all below the search timestamp, the loop walks `low`
up to `high`, setting `found_smaller` and leaving `found_larger` alone. -/
theorem searchLoop_all_false (ts : Int) (oracle : Nat → Except PErr (List Int)) :
    ∀ (n low high : Nat), high - low = n → low < high →
    (∀ m, low ≤ m → m < high →
      ∃ l, oracle (m * 8) = .ok l ∧ l ≠ [] ∧ ∀ t ∈ l, t < ts) →
    ∀ fs fl, searchLoop ts oracle low high fs fl = .ok high true fl := by
  intro n
  induction n using Nat.strong_induction_on with
  | _ n ih =>
    intro low high hn hlow hprobe fs fl
    rw [searchLoop, if_pos hlow]
    have hmid1 : low ≤ (high + low) / 2 := by omega
    have hmid2 : (high + low) / 2 < high := by omega
    obtain ⟨l, hl, hne, hall⟩ := hprobe ((high + low) / 2) hmid1 hmid2
    simp only [hl, probeScan_all_small ts l hne hall fs fl]
    by_cases hcont : (high + low) / 2 + 1 < high
    · exact ih (high - ((high + low) / 2 + 1)) (by omega) _ high rfl hcont
        (fun m h1 h2 => hprobe m (by omega) h2) true fl
    · have heq : (high + low) / 2 + 1 = high := by omega
      rw [heq, searchLoop, if_neg (lt_irrefl high)]

/-- If every probe point in `[low, high)` sees a non-empty list whose
timestamps are all at or above the search timestamp, the loop walks `high`
down to `low`, setting `found_larger` and leaving `found_smaller` alone. -/
theorem searchLoop_all_true (ts : Int) (oracle : Nat → Except PErr (List Int)) :
    ∀ (n low high : Nat), high - low = n → low < high →
    (∀ m, low ≤ m → m < high →
      ∃ l, oracle (m * 8) = .ok l ∧ l ≠ [] ∧ ∀ t ∈ l, ts ≤ t) →
    ∀ fs fl, searchLoop ts oracle low high fs fl = .ok low fs true := by
  intro n
  induction n using Nat.strong_induction_on with
  | _ n ih =>
    intro low high hn hlow hprobe fs fl
    rw [searchLoop, if_pos hlow]
    have hmid1 : low ≤ (high + low) / 2 := by omega
    have hmid2 : (high + low) / 2 < high := by omega
    obtain ⟨l, hl, hne, hall⟩ := hprobe ((high + low) / 2) hmid1 hmid2
    simp only [hl, probeScan_all_large ts l hne hall fs fl]
    by_cases hcont : low < (high + low) / 2
    · exact ih ((high + low) / 2 - low) (by omega) low _ rfl hcont
        (fun m h1 h2 => hprobe m h1 (by omega)) fs true
    · have heq : (high + low) / 2 = low := by omega
      rw [heq, searchLoop, if_neg (lt_irrefl low)]

/-- If every probe point in `[low, high)` breaks (some visible timestamp
is at or above the search timestamp), and `found_smaller` is already set,
the loop walks `high` down to `low`, keeping both flags set. -/
theorem searchLoop_all_break (ts : Int) (oracle : Nat → Except PErr (List Int)) :
    ∀ (n low high : Nat), high - low = n → low < high →
    (∀ m, low ≤ m → m < high →
      ∃ l, oracle (m * 8) = .ok l ∧ ∃ t ∈ l, ts ≤ t) →
    ∀ fl, searchLoop ts oracle low high true fl = .ok low true true := by
  intro n
  induction n using Nat.strong_induction_on with
  | _ n ih =>
    intro low high hn hlow hprobe fl
    rw [searchLoop, if_pos hlow]
    have hmid1 : low ≤ (high + low) / 2 := by omega
    have hmid2 : (high + low) / 2 < high := by omega
    obtain ⟨l, hl, hex⟩ := hprobe ((high + low) / 2) hmid1 hmid2
    obtain ⟨fs', hps, himp⟩ := probeScan_break ts l hex true fl
    simp only [hl, hps, himp rfl]
    by_cases hcont : low < (high + low) / 2
    · exact ih ((high + low) / 2 - low) (by omega) low _ rfl hcont
        (fun m h1 h2 => hprobe m h1 (by omega)) true
    · have heq : (high + low) / 2 = low := by omega
      rw [heq, searchLoop, if_neg (lt_irrefl low)]

/-- The monotone-threshold shape of the search: below `m₀` every probe
sees only smaller timestamps (non-empty), from `m₀` on every probe breaks.
Starting anywhere strictly below `m₀` with `m₀` inside the interval, the
loop converges to exactly `m₀` with both flags set. -/
theorem searchLoop_mixed (ts : Int) (oracle : Nat → Except PErr (List Int))
    (m₀ : Nat) :
    ∀ (n low high : Nat), high - low = n → low < m₀ → m₀ < high →
    (∀ m, low ≤ m → m < m₀ →
      ∃ l, oracle (m * 8) = .ok l ∧ l ≠ [] ∧ ∀ t ∈ l, t < ts) →
    (∀ m, m₀ ≤ m → m < high →
      ∃ l, oracle (m * 8) = .ok l ∧ ∃ t ∈ l, ts ≤ t) →
    ∀ fs fl, searchLoop ts oracle low high fs fl = .ok m₀ true true := by
  intro n
  induction n using Nat.strong_induction_on with
  | _ n ih =>
    intro low high hn hlowm hmhigh hsmall hlarge fs fl
    have hlow : low < high := by omega
    rw [searchLoop, if_pos hlow]
    by_cases hmid : (high + low) / 2 < m₀
    · have hmid1 : low ≤ (high + low) / 2 := by omega
      obtain ⟨l, hl, hne, hall⟩ := hsmall ((high + low) / 2) hmid1 hmid
      simp only [hl, probeScan_all_small ts l hne hall fs fl]
      by_cases hcont : (high + low) / 2 + 1 < m₀
      · exact ih (high - ((high + low) / 2 + 1)) (by omega) _ high rfl hcont
          hmhigh (fun m h1 h2 => hsmall m (by omega) h2) hlarge true fl
      · have heq : (high + low) / 2 + 1 = m₀ := by omega
        rw [heq]
        exact searchLoop_all_break ts oracle (high - m₀) m₀ high rfl hmhigh
          hlarge fl
    · have hmid2 : (high + low) / 2 < high := by omega
      obtain ⟨l, hl, hex⟩ := hlarge ((high + low) / 2) (by omega) hmid2
      obtain ⟨fs', hps, _⟩ := probeScan_break ts l hex fs fl
      simp only [hl, hps]
      by_cases hcont : m₀ < (high + low) / 2
      · exact ih ((high + low) / 2 - low) (by omega) low _ rfl hlowm hcont
          (fun m h1 h2 => hsmall m h1 h2) (fun m h1 h2 => hlarge m h1 (by omega))
          fs' true
      · have heq : (high + low) / 2 = m₀ := by omega
        rw [heq]
        exact searchLoop_all_false ts oracle (m₀ - low) low m₀ rfl hlowm
          (fun m h1 h2 => hsmall m h1 h2) fs' true

end PgDatadir

namespace PgDatadir

theorem searchLoop_empty (ts : Int) (oracle : Nat → Except PErr (List Int))
    (hor : ∀ m, oracle (m * 8) = .ok []) :
    ∀ (n low high : Nat), high - low = n →
    ∀ fs fl, ∃ lo, searchLoop ts oracle low high fs fl = .ok lo fs fl := by
  intro n
  induction n using Nat.strong_induction_on with
  | _ n ih =>
    intro low high hn fs fl
    by_cases hlow : low < high
    · rw [searchLoop, if_pos hlow]
      simp only [hor ((high + low) / 2)]
      show ∃ lo, searchLoop ts oracle ((high + low) / 2 + 1) high fs fl
        = .ok lo fs fl
      exact ih (high - ((high + low) / 2 + 1)) (by omega) _ high rfl fs fl
    · rw [searchLoop, if_neg hlow]
      exact ⟨low, rfl⟩

end PgDatadir

namespace PgDatadir

/-- C5: classification of `find_lsn_for_timestamp` over a commit history
(each commit a `(lsn, timestamp)` pair; probing at an LSN scans the
timestamps of the commits at or below it).  With no timestamped commits at
all the result is `NoData(min_lsn)`.  With commits whose timestamps are
all before the search timestamp (at least one visible from `min_lsn` on),
the result is `Future` at the aligned top of the search window.  With
commits all at or after the search timestamp, the result is
`Past(min_lsn)`.  With commits on both sides, the result is `Present` at
the boundary: one step (8 bytes) below the first LSN carrying a timestamp
at or after the search timestamp.  And a `MissingKey` probe error is not
propagated: it short-circuits the whole search to `Past(min_lsn)`. -/
theorem find_lsn_for_timestamp_classification :
    (∀ (ts : Int) (minLsn maxLsn : Nat),
      findLsnForTimestamp ts (timestampsAt []) minLsn maxLsn
        = .ok (.NoData minLsn)) ∧
    (∀ (ts : Int) (commits : List (Nat × Int)) (minLsn maxLsn : Nat),
      minLsn ≤ maxLsn → 8 ∣ minLsn →
      (∀ c ∈ commits, c.2 < ts) →
      (∃ c ∈ commits, c.1 ≤ minLsn) →
      findLsnForTimestamp ts (timestampsAt commits) minLsn maxLsn
        = .ok (.Future ((maxLsn / 8) * 8))) ∧
    (∀ (ts : Int) (commits : List (Nat × Int)) (minLsn maxLsn : Nat),
      minLsn ≤ maxLsn → 8 ∣ minLsn →
      (∀ c ∈ commits, ts ≤ c.2) →
      (∃ c ∈ commits, c.1 ≤ minLsn) →
      findLsnForTimestamp ts (timestampsAt commits) minLsn maxLsn
        = .ok (.Past minLsn)) ∧
    (∀ (ts : Int) (commits : List (Nat × Int)) (minLsn maxLsn g : Nat),
      8 ∣ minLsn → 8 ∣ g → minLsn < g → g ≤ maxLsn →
      (∃ c ∈ commits, c.1 ≤ minLsn ∧ c.2 < ts) →
      (∃ c ∈ commits, c.1 = g ∧ ts ≤ c.2) →
      (∀ c ∈ commits, ts ≤ c.2 → g ≤ c.1) →
      findLsnForTimestamp ts (timestampsAt commits) minLsn maxLsn
        = .ok (.Present (g - 8))) ∧
    (∀ (ts : Int) (oracle : Nat → Except PErr (List Int)) (minLsn maxLsn : Nat),
      minLsn / 8 < maxLsn / 8 + 1 →
      oracle ((((maxLsn / 8 + 1) + minLsn / 8) / 2) * 8)
        = .error .missingKey →
      findLsnForTimestamp ts oracle minLsn maxLsn = .ok (.Past minLsn)) := by
  refine ⟨?_, ?_, ?_, ?_, ?_⟩
  · intro ts minLsn maxLsn
    obtain ⟨lo, hloop⟩ := searchLoop_empty ts (timestampsAt [])
      (fun m => rfl) ((maxLsn / 8 + 1) - minLsn / 8) (minLsn / 8)
      (maxLsn / 8 + 1) rfl false false
    unfold findLsnForTimestamp
    rw [hloop]
  · intro ts commits minLsn maxLsn hmm hdvd hall hc0
    obtain ⟨c0, hc0mem, hc0le⟩ := hc0
    have hsmall : ∀ m, minLsn / 8 ≤ m → m < maxLsn / 8 + 1 →
        ∃ l, timestampsAt commits (m * 8) = .ok l ∧ l ≠ [] ∧
          ∀ t ∈ l, t < ts := by
      intro m hm1 hm2
      refine ⟨_, rfl, ?_, ?_⟩
      · have hcf : c0 ∈ commits.filter (fun c => c.1 ≤ m * 8) := by
          rw [List.mem_filter]
          refine ⟨hc0mem, ?_⟩
          have h1 : c0.1 ≤ m * 8 := by omega
          simpa using h1
        exact List.ne_nil_of_mem (List.mem_map_of_mem _ hcf)
      · intro t ht
        rw [List.mem_map] at ht
        obtain ⟨c, hcf, hct⟩ := ht
        rw [← hct]
        exact hall c (List.mem_of_mem_filter hcf)
    have hlow : minLsn / 8 < maxLsn / 8 + 1 := by omega
    have hloop := searchLoop_all_false ts (timestampsAt commits)
      ((maxLsn / 8 + 1) - minLsn / 8) (minLsn / 8) (maxLsn / 8 + 1) rfl hlow
      hsmall false false
    unfold findLsnForTimestamp
    rw [hloop]
    have hge : ¬ ((maxLsn / 8 + 1) - 1) * 8 < minLsn := by omega
    simp [hge]
    omega
  · intro ts commits minLsn maxLsn hmm hdvd hall hc0
    obtain ⟨c0, hc0mem, hc0le⟩ := hc0
    have hlarge : ∀ m, minLsn / 8 ≤ m → m < maxLsn / 8 + 1 →
        ∃ l, timestampsAt commits (m * 8) = .ok l ∧ l ≠ [] ∧
          ∀ t ∈ l, ts ≤ t := by
      intro m hm1 hm2
      refine ⟨_, rfl, ?_, ?_⟩
      · have hcf : c0 ∈ commits.filter (fun c => c.1 ≤ m * 8) := by
          rw [List.mem_filter]
          refine ⟨hc0mem, ?_⟩
          have h1 : c0.1 ≤ m * 8 := by omega
          simpa using h1
        exact List.ne_nil_of_mem (List.mem_map_of_mem _ hcf)
      · intro t ht
        rw [List.mem_map] at ht
        obtain ⟨c, hcf, hct⟩ := ht
        rw [← hct]
        exact hall c (List.mem_of_mem_filter hcf)
    have hlow : minLsn / 8 < maxLsn / 8 + 1 := by omega
    have hloop := searchLoop_all_true ts (timestampsAt commits)
      ((maxLsn / 8 + 1) - minLsn / 8) (minLsn / 8) (maxLsn / 8 + 1) rfl hlow
      hlarge false false
    unfold findLsnForTimestamp
    rw [hloop]
  · intro ts commits minLsn maxLsn g hdvdm hdvdg hmg hgm hsm hgc hgmin
    obtain ⟨c0, hc0mem, hc0le, hc0ts⟩ := hsm
    obtain ⟨cg, hcgmem, hcgl, hcgts⟩ := hgc
    have hsmall : ∀ m, minLsn / 8 ≤ m → m < g / 8 →
        ∃ l, timestampsAt commits (m * 8) = .ok l ∧ l ≠ [] ∧
          ∀ t ∈ l, t < ts := by
      intro m hm1 hm2
      refine ⟨_, rfl, ?_, ?_⟩
      · have hcf : c0 ∈ commits.filter (fun c => c.1 ≤ m * 8) := by
          rw [List.mem_filter]
          refine ⟨hc0mem, ?_⟩
          have h1 : c0.1 ≤ m * 8 := by omega
          simpa using h1
        exact List.ne_nil_of_mem (List.mem_map_of_mem _ hcf)
      · intro t ht
        rw [List.mem_map] at ht
        obtain ⟨c, hcf, hct⟩ := ht
        rw [← hct]
        have hcmem := List.mem_of_mem_filter hcf
        have hcle : c.1 ≤ m * 8 := by
          have := (List.mem_filter.1 hcf).2
          simpa using this
        by_contra hge
        have hts : ts ≤ c.2 := not_lt.1 hge
        have := hgmin c hcmem hts
        omega
    have hlarge : ∀ m, g / 8 ≤ m → m < maxLsn / 8 + 1 →
        ∃ l, timestampsAt commits (m * 8) = .ok l ∧ ∃ t ∈ l, ts ≤ t := by
      intro m hm1 hm2
      refine ⟨_, rfl, cg.2, ?_, hcgts⟩
      refine List.mem_map_of_mem _ ?_
      rw [List.mem_filter]
      refine ⟨hcgmem, ?_⟩
      have h1 : cg.1 ≤ m * 8 := by omega
      simpa using h1
    have hlowm : minLsn / 8 < g / 8 := by omega
    have hmhigh : g / 8 < maxLsn / 8 + 1 := by omega
    have hloop := searchLoop_mixed ts (timestampsAt commits) (g / 8)
      ((maxLsn / 8 + 1) - minLsn / 8) (minLsn / 8) (maxLsn / 8 + 1) rfl hlowm
      hmhigh hsmall hlarge false false
    unfold findLsnForTimestamp
    rw [hloop]
    have hge : ¬ (g / 8 - 1) * 8 < minLsn := by omega
    have heq : (g / 8 - 1) * 8 = g - 8 := by omega
    simp [hge, heq]
    omega
  · intro ts oracle minLsn maxLsn h horacle
    unfold findLsnForTimestamp
    rw [searchLoop, if_pos h]
    simp only [horacle]

theorem find_lsn_for_timestamp_classification_witness :
    (findLsnForTimestamp 100 (timestampsAt []) 0 80 = .ok (.NoData 0)) ∧
    (findLsnForTimestamp 100 (timestampsAt [(0, 50)]) 0 80
      = .ok (.Future 80)) ∧
    (findLsnForTimestamp 100 (timestampsAt [(0, 150)]) 0 80
      = .ok (.Past 0)) ∧
    (findLsnForTimestamp 100 (timestampsAt [(0, 50), (40, 150)]) 0 80
      = .ok (.Present 32)) ∧
    (findLsnForTimestamp 100 (fun _ => .error .missingKey) 0 80
      = .ok (.Past 0)) :=
  ⟨find_lsn_for_timestamp_classification.1 100 0 80,
   find_lsn_for_timestamp_classification.2.1 100 [(0, 50)] 0 80 (by decide)
      (by decide) (by decide) (by decide),
   find_lsn_for_timestamp_classification.2.2.1 100 [(0, 150)] 0 80 (by decide)
      (by decide) (by decide) (by decide),
   find_lsn_for_timestamp_classification.2.2.2.1 100 [(0, 50), (40, 150)] 0 80
      40 (by decide) (by decide) (by decide) (by decide) (by decide)
      (by decide) (by decide),
   find_lsn_for_timestamp_classification.2.2.2.2 100
      (fun _ => .error .missingKey) 0 80 (by decide) rfl⟩

end PgDatadir
